import Mathlib

/-!
# Verification of the N-body trajectory-cache core of `spaceflight_white_elephant`

This file gives a shallow embedding of the simulation core of the repository
(`src/game.rs`, `src/keyboard_input.rs`, `src/render.rs`, `src/vector2.rs`,
`src/planet.rs`, `src/player.rs`) and proves properties of the trajectory
cache, integrator, input bridge and dominant-planet attribution.

Modelling conventions:
* `f64` scalars are modelled as exact rationals (`ℚ`); floating-point rounding
  is out of scope, all claims here are about the algebraic structure of the
  algorithms.
* The transcendental functions used by the code (`sqrt` in
  `Vector2::magnitude`, `sin`/`cos` in `InputState::apply_to_game`) are taken
  as explicit function parameters `sq`, `sinf`, `cosf : ℚ → ℚ`; every
  structural theorem holds for an arbitrary choice of these functions, and
  facts that genuinely need `sqrt` semantics carry the corresponding local
  hypothesis (for example `sq d * sq d = d`).
* Rust `VecDeque` becomes `List` (front = head); `Vec` becomes `List`.
* Rust panics (index out of bounds, `usize` subtraction overflow) are modelled
  by `Option`: an operation that can panic returns `none` exactly on the
  inputs where the Rust code panics.
* Presentational fields of `Planet` (`name`, `color`, `texture`,
  `description`) are omitted: they are plain data never read or written by
  any of the operations modelled here.  `radius` is kept.
-/

namespace Sim

/-- 2D vector, from `src/vector2.rs` (`f64` components modelled as `ℚ`). -/
structure Vector2 where
  x : ℚ
  y : ℚ
deriving DecidableEq

/-- `Vector2::add` from `src/vector2.rs`. -/
def Vector2.add (v w : Vector2) : Vector2 := ⟨v.x + w.x, v.y + w.y⟩

/-- `Vector2::subtract` from `src/vector2.rs`. -/
def Vector2.subtract (v w : Vector2) : Vector2 := ⟨v.x - w.x, v.y - w.y⟩

/-- `Vector2::scale` from `src/vector2.rs`. -/
def Vector2.scale (v : Vector2) (s : ℚ) : Vector2 := ⟨v.x * s, v.y * s⟩

/-- `Vector2::dot` from `src/vector2.rs`. -/
def Vector2.dot (v w : Vector2) : ℚ := v.x * w.x + v.y * w.y

/-- `Vector2::magnitude` from `src/vector2.rs`:
`(x*x + y*y).sqrt()`, with the square root passed in as `sq`. -/
def Vector2.magnitude (sq : ℚ → ℚ) (v : Vector2) : ℚ := sq (v.x * v.x + v.y * v.y)

/-- The zero vector `Vector2 { x: 0.0, y: 0.0 }`. -/
def Vector2.zero : Vector2 := ⟨0, 0⟩

/-- `Planet` from `src/planet.rs` (presentational fields omitted, see header). -/
structure Planet where
  radius : ℚ
  mass : ℚ
  position : Vector2
  velocity : Vector2
deriving DecidableEq

/-- `Player` from `src/player.rs`. -/
structure Player where
  position : Vector2
  velocity : Vector2
  mass : ℚ
  rotation : ℚ
deriving DecidableEq

/-- `CachedTrajectories` from `src/game.rs` (`VecDeque` = `List`, front = head). -/
structure CachedTrajectories where
  player_positions : List Vector2
  player_velocities : List Vector2
  player_rotations : List ℚ
  planet_positions : List (List Vector2)
  planet_velocities : List (List Vector2)
  is_valid : Bool
deriving DecidableEq

/-- `Game` from `src/game.rs`. -/
structure Game where
  big_gravity : ℚ
  planets : List Planet
  player : Player
  cached_trajectories : CachedTrajectories
deriving DecidableEq

/-- `TRAJECTORY_NUM_STEPS` from `src/game.rs`. -/
def TRAJECTORY_NUM_STEPS : ℕ := 100000

/-- `TRAJECTORY_DT` from `src/game.rs` (the literal `0.016`, exactly). -/
def TRAJECTORY_DT : ℚ := 16 / 1000

/-- `TRAJECTORY_SUBSTEPS` from `src/game.rs`. -/
def TRAJECTORY_SUBSTEPS : ℕ := 5

/-- Indexing helper: `planets[i]` (always used in bounds by the source). -/
def getPlanet (ps : List Planet) (i : ℕ) : Planet :=
  ps.getD i ⟨0, 0, Vector2.zero, Vector2.zero⟩

/-- Indexing helper: element `i` of a vector list. -/
def getVec (l : List Vector2) (i : ℕ) : Vector2 := l.getD i Vector2.zero

/-- Indexing helper: element `i` of a list of vector lists. -/
def getL (ls : List (List Vector2)) (i : ℕ) : List Vector2 := ls.getD i []

/-- Body of the planet-to-planet pair loop of `Game::update` (`src/game.rs`):
processing the pair `(i, j)` mutates `planet_accelerations` at indices `i`
and `j` when the distance is positive, else leaves it unchanged. -/
def pairBody (bigG : ℚ) (sq : ℚ → ℚ) (ps : List Planet)
    (acc : List Vector2) (ij : ℕ × ℕ) : List Vector2 :=
  let pI := getPlanet ps ij.1
  let pJ := getPlanet ps ij.2
  let diff := pJ.position.subtract pI.position
  let dist := diff.magnitude sq
  if 0 < dist then
    let force_magnitude := bigG / (dist * dist)
    let dir := diff.scale (1 / dist)
    let acc1 := acc.set ij.1 ((getVec acc ij.1).add (dir.scale (force_magnitude * pJ.mass)))
    acc1.set ij.2 ((getVec acc1 ij.2).add (dir.scale (-force_magnitude * pI.mass)))
  else acc

/-- The index pairs `(i, j)` with `i < j < n`, in the order the nested
`for i in 0..n { for j in (i+1)..n { .. } }` loops of `Game::update` visit
them. -/
def allPairs (n : ℕ) : List (ℕ × ℕ) :=
  (List.range n).flatMap fun i => (List.range' (i + 1) (n - (i + 1))).map fun j => (i, j)

/-- The planet-to-planet phase of `Game::update`: fold the pair loop body
over all pairs, starting from a zero-initialised acceleration vector. -/
def planetPairAccels (bigG : ℚ) (sq : ℚ → ℚ) (ps : List Planet) : List Vector2 :=
  (allPairs ps.length).foldl (pairBody bigG sq ps) (List.replicate ps.length Vector2.zero)

/-- Body of the player-coupling loop of `Game::update`: planet `i` pulls the
player and receives the reaction acceleration; the state is
`(player_acceleration, planet_accelerations)`. -/
def playerBody (bigG : ℚ) (sq : ℚ → ℚ) (pl : Player) (ps : List Planet)
    (st : Vector2 × List Vector2) (i : ℕ) : Vector2 × List Vector2 :=
  let planet := getPlanet ps i
  let diff := planet.position.subtract pl.position
  let dist := diff.magnitude sq
  if 0 < dist then
    let force_magnitude := bigG * planet.mass * pl.mass / (dist * dist)
    let dir := diff.scale (1 / dist)
    (st.1.add (dir.scale (force_magnitude / pl.mass)),
     st.2.set i ((getVec st.2 i).add (dir.scale (-force_magnitude / planet.mass))))
  else st

/-- Both acceleration phases of `Game::update`: the pair phase followed by the
player-coupling loop over `0..n`. -/
def accelPhase (bigG : ℚ) (sq : ℚ → ℚ) (pl : Player) (ps : List Planet) :
    Vector2 × List Vector2 :=
  (List.range ps.length).foldl (playerBody bigG sq pl ps)
    (Vector2.zero, planetPairAccels bigG sq ps)

/-- `Game::update` from `src/game.rs`: compute all accelerations from the
pre-update positions, then integrate velocity before position with the same
`dt` for every body and the player.  The cache field is untouched. -/
def Game.update (sq : ℚ → ℚ) (g : Game) (dt : ℚ) : Game :=
  let st := accelPhase g.big_gravity sq g.player g.planets
  let planets' := (List.range g.planets.length).map fun i =>
    let p := getPlanet g.planets i
    let v' := p.velocity.add ((getVec st.2 i).scale dt)
    { p with velocity := v', position := p.position.add (v'.scale dt) }
  let pv' := g.player.velocity.add (st.1.scale dt)
  { g with
    planets := planets',
    player := { g.player with
                velocity := pv',
                position := g.player.position.add (pv'.scale dt) } }

/-- The empty, invalid cache used for scratch simulations in
`Game::recalculate_trajectories` and `Game::extend_trajectories`, and in
`Game::new`. -/
def emptyCache : CachedTrajectories := ⟨[], [], [], [], [], false⟩

/-- One cache tick: `TRAJECTORY_SUBSTEPS` sub-steps of size
`TRAJECTORY_DT / TRAJECTORY_SUBSTEPS`, as in the inner loops of
`Game::recalculate_trajectories` and `Game::extend_trajectories`. -/
def Game.tick (sq : ℚ → ℚ) (g : Game) : Game :=
  (fun gg => Game.update sq gg (TRAJECTORY_DT / (TRAJECTORY_SUBSTEPS : ℚ)))^[TRAJECTORY_SUBSTEPS] g

/-- The scratch copy `predicted_game` both recompute paths start from: same
present state, fresh empty invalid cache. -/
def predictedInit (g : Game) : Game :=
  ⟨g.big_gravity, g.planets, g.player, emptyCache⟩

/-- The sequence of scratch states observed by the recompute loop: the loop
of `Game::recalculate_trajectories` records the state, then advances it by
one tick, `numSteps` times. -/
def buildTraj (sq : ℚ → ℚ) : ℕ → Game → List Game
  | 0, _ => []
  | k + 1, g => g :: buildTraj sq k (Game.tick sq g)

/-- `Game::recalculate_trajectories` generalised over the horizon: the source
fixes `num_steps = TRAJECTORY_NUM_STEPS`; the spec's "recompute with horizon
H" is this function.  Builds all five sequence families from one scratch run
and replaces the cache wholesale, marking it valid. -/
def Game.recalcWith (sq : ℚ → ℚ) (numSteps : ℕ) (g : Game) : Game :=
  let states := buildTraj sq numSteps (predictedInit g)
  { g with cached_trajectories :=
    { player_positions := states.map fun s => s.player.position
      player_velocities := states.map fun s => s.player.velocity
      player_rotations := states.map fun s => s.player.rotation
      planet_positions := (List.range g.planets.length).map fun i =>
        states.map fun s => (getPlanet s.planets i).position
      planet_velocities := (List.range g.planets.length).map fun i =>
        states.map fun s => (getPlanet s.planets i).velocity
      is_valid := true } }

/-- `Game::recalculate_trajectories` from `src/game.rs`. -/
def Game.recalculate_trajectories (sq : ℚ → ℚ) (g : Game) : Game :=
  Game.recalcWith sq TRAJECTORY_NUM_STEPS g

/-- `Game::new` from `src/game.rs`: seed the present state, start with an
empty invalid cache, then run one full recompute. -/
def Game.new (sq : ℚ → ℚ) (planets : List Planet) (player : Player) : Game :=
  Game.recalculate_trajectories sq ⟨1 / 1000000, planets, player, emptyCache⟩

/-- Pop the front of each of the first `n` lists, as the final loop of
`Game::advance_trajectory` does (`planet_positions[i].pop_front()` for
`i in 0..n`). -/
def popFronts (n : ℕ) : List (List Vector2) → List (List Vector2)
  | [] => []
  | l :: ls =>
    match n with
    | 0 => l :: ls
    | m + 1 => l.tail :: popFronts m ls

/-- The reads `Game::advance_trajectory` performs after its guard:
`player_velocities[0]` and, for every `i < planets.len()`,
`planet_positions[i][0]` and `planet_velocities[i][0]`.  If any of these
indexings is out of bounds the Rust code panics. -/
def advanceReadsOk (g : Game) : Prop :=
  g.cached_trajectories.player_velocities ≠ [] ∧
  ∀ i < g.planets.length,
    i < g.cached_trajectories.planet_positions.length ∧
    i < g.cached_trajectories.planet_velocities.length ∧
    getL g.cached_trajectories.planet_positions i ≠ [] ∧
    getL g.cached_trajectories.planet_velocities i ≠ []

instance (g : Game) : Decidable (advanceReadsOk g) := by
  unfold advanceReadsOk
  infer_instance

/-- The state `Game::advance_trajectory` produces on its non-guard path:
index 0 of every position/velocity sequence is copied into the present state
(the rotation is deliberately not copied), then the front of every sequence
is popped. -/
def advanceResult (g : Game) : Game :=
  { big_gravity := g.big_gravity
    planets := (List.range g.planets.length).map fun i =>
      { getPlanet g.planets i with
        position := getVec (getL g.cached_trajectories.planet_positions i) 0
        velocity := getVec (getL g.cached_trajectories.planet_velocities i) 0 }
    player := { g.player with
                position := getVec g.cached_trajectories.player_positions 0
                velocity := getVec g.cached_trajectories.player_velocities 0 }
    cached_trajectories :=
      { player_positions := g.cached_trajectories.player_positions.tail
        player_velocities := g.cached_trajectories.player_velocities.tail
        player_rotations := g.cached_trajectories.player_rotations.tail
        planet_positions := popFronts g.planets.length g.cached_trajectories.planet_positions
        planet_velocities := popFronts g.planets.length g.cached_trajectories.planet_velocities
        is_valid := g.cached_trajectories.is_valid } }

/-- `Game::advance_trajectory` from `src/game.rs`.  Guarded no-op when the
cache is invalid or `player_positions` is empty.  `none` models a panic. -/
def Game.advance_trajectory (g : Game) : Option Game :=
  if g.cached_trajectories.is_valid = false ∨ g.cached_trajectories.player_positions = [] then
    some g
  else if advanceReadsOk g then some (advanceResult g)
  else none

/-- Append `xs[i]` to the back of list `i`, for `i < xs.length`: the
per-planet `push_back` loop of `Game::extend_trajectories`. -/
def pushBacks (xs : List Vector2) : List (List Vector2) → List (List Vector2)
  | [] => []
  | l :: ls =>
    match xs with
    | [] => l :: ls
    | x :: xs' => (l ++ [x]) :: pushBacks xs' ls

/-- One iteration's appends in `Game::extend_trajectories`: push the
observation of the freshly ticked scratch state `pg'` onto the back of every
sequence (`planet_positions[i].push_back(..)` for `i < nP`). -/
def appendObs (pg' : Game) (c : CachedTrajectories) (nP : ℕ) : CachedTrajectories :=
  { player_positions := c.player_positions ++ [pg'.player.position]
    player_velocities := c.player_velocities ++ [pg'.player.velocity]
    player_rotations := c.player_rotations ++ [pg'.player.rotation]
    planet_positions :=
      pushBacks ((List.range nP).map fun i => (getPlanet pg'.planets i).position)
        c.planet_positions
    planet_velocities :=
      pushBacks ((List.range nP).map fun i => (getPlanet pg'.planets i).velocity)
        c.planet_velocities
    is_valid := c.is_valid }

/-- The extension loop of `Game::extend_trajectories`: `n` times, advance the
scratch game by one tick and append the resulting state to the back of every
sequence. -/
def extendLoop (sq : ℚ → ℚ) : ℕ → Game → CachedTrajectories → ℕ → CachedTrajectories
  | 0, _, c, _ => c
  | k + 1, pg, c, nP => extendLoop sq k (Game.tick sq pg) (appendObs (Game.tick sq pg) c nP) nP

/-- The reads `Game::extend_trajectories` performs: `last_idx` is
`player_positions.len() - 1` (a `usize` underflow, hence a panic, when the
cache is empty), then `player_velocities[last_idx]`,
`player_rotations[last_idx]` and, for every `i < planets.len()`,
`planet_positions[i][last_idx]` and `planet_velocities[i][last_idx]`. -/
def extendReadsOk (g : Game) : Prop :=
  g.cached_trajectories.player_positions ≠ [] ∧
  g.cached_trajectories.player_positions.length - 1 <
    g.cached_trajectories.player_velocities.length ∧
  g.cached_trajectories.player_positions.length - 1 <
    g.cached_trajectories.player_rotations.length ∧
  ∀ i < g.planets.length,
    i < g.cached_trajectories.planet_positions.length ∧
    i < g.cached_trajectories.planet_velocities.length ∧
    g.cached_trajectories.player_positions.length - 1 <
      (getL g.cached_trajectories.planet_positions i).length ∧
    g.cached_trajectories.player_positions.length - 1 <
      (getL g.cached_trajectories.planet_velocities i).length

instance (g : Game) : Decidable (extendReadsOk g) := by
  unfold extendReadsOk
  infer_instance

/-- The scratch game `Game::extend_trajectories` seeds from the last cached
entry of every sequence: cached positions/velocities (and rotation) at
`last_idx`, present masses and gravitational constant, fresh empty cache. -/
def extendSeed (g : Game) : Game :=
  { big_gravity := g.big_gravity
    planets := (List.range g.planets.length).map fun i =>
      { getPlanet g.planets i with
        position := getVec (getL g.cached_trajectories.planet_positions i)
          (g.cached_trajectories.player_positions.length - 1)
        velocity := getVec (getL g.cached_trajectories.planet_velocities i)
          (g.cached_trajectories.player_positions.length - 1) }
    player :=
      { position := getVec g.cached_trajectories.player_positions
          (g.cached_trajectories.player_positions.length - 1)
        velocity := getVec g.cached_trajectories.player_velocities
          (g.cached_trajectories.player_positions.length - 1)
        mass := g.player.mass
        rotation := g.cached_trajectories.player_rotations.getD
          (g.cached_trajectories.player_positions.length - 1) 0 }
    cached_trajectories := emptyCache }

/-- `Game::extend_trajectories` from `src/game.rs`.  No-op for `num_steps = 0`;
otherwise seeds a scratch game from the last cached entry of every sequence
and appends `num_steps` freshly simulated entries to the back of every
sequence.  `none` models the panic on an empty cache. -/
def Game.extend_trajectories (sq : ℚ → ℚ) (g : Game) (num_steps : ℕ) : Option Game :=
  if num_steps = 0 then some g
  else if extendReadsOk g then
    some { g with cached_trajectories := extendLoop sq num_steps (extendSeed g) g.cached_trajectories g.planets.length }
  else none

/-- `InputState` from `src/keyboard_input.rs`. -/
structure InputState where
  rotate_left : Bool
  rotate_right : Bool
  thrust : Bool
deriving DecidableEq

/-- `InputState::apply_to_game` from `src/keyboard_input.rs`: rotate the
player (3 rad/s) for held rotation keys, then, if thrust is held, add the
thrust acceleration times `dt` to the present velocity (forward =
`(sin θ, -cos θ)`) and trigger a full recompute. -/
def InputState.apply_to_game (sq sinf cosf : ℚ → ℚ) (s : InputState)
    (g : Game) (dt : ℚ) : Game :=
  let rotation_speed : ℚ := 3
  let g1 := if s.rotate_left then
      { g with player := { g.player with rotation := g.player.rotation - rotation_speed * dt } }
    else g
  let g2 := if s.rotate_right then
      { g1 with player := { g1.player with rotation := g1.player.rotation + rotation_speed * dt } }
    else g1
  if s.thrust then
    let thrust_force : ℚ := 25
    let thrust_x := sinf g2.player.rotation * thrust_force
    let thrust_y := -(cosf g2.player.rotation) * thrust_force
    let g3 := { g2 with player := { g2.player with velocity :=
      ⟨g2.player.velocity.x + thrust_x / g2.player.mass * dt,
       g2.player.velocity.y + thrust_y / g2.player.mass * dt⟩ } }
    g3.recalculate_trajectories sq
  else g2

/-- The loop of `find_dominant_planet` from `src/render.rs`, as structural
recursion over the remaining planets: `i` is the current index, `maxA` and
`dom` the accumulator (`max_accel`, `dominant_idx`). -/
def fdpAux (bigG : ℚ) (sq : ℚ → ℚ) (pos : Vector2) :
    List Planet → ℕ → ℚ → ℕ → ℕ
  | [], _, _, dom => dom
  | p :: ps, i, maxA, dom =>
    let diff := p.position.subtract pos
    let dist := diff.magnitude sq
    if 0 < dist then
      let accel := bigG * p.mass / (dist * dist)
      if maxA < accel then fdpAux bigG sq pos ps (i + 1) accel i
      else fdpAux bigG sq pos ps (i + 1) maxA dom
    else fdpAux bigG sq pos ps (i + 1) maxA dom

/-- `find_dominant_planet` from `src/render.rs`. -/
def find_dominant_planet (sq : ℚ → ℚ) (g : Game) (position : Vector2) : ℕ :=
  fdpAux g.big_gravity sq position g.planets 0 0 0

/-! ## Basic lemmas about list indexing and the building blocks -/

theorem getD_range_map {α : Type} (f : ℕ → α) (d : α) {n i : ℕ} (h : i < n) :
    ((List.range n).map f).getD i d = f i := by
  rw [List.getD_eq_getElem?_getD, List.getElem?_map, List.getElem?_range h]
  rfl

theorem getL_range_map (f : ℕ → List Vector2) {n i : ℕ} (h : i < n) :
    getL ((List.range n).map f) i = f i :=
  getD_range_map f [] h

theorem getVec_range_map (f : ℕ → Vector2) {n i : ℕ} (h : i < n) :
    getVec ((List.range n).map f) i = f i :=
  getD_range_map f Vector2.zero h

theorem getPlanet_range_map (f : ℕ → Planet) {n i : ℕ} (h : i < n) :
    getPlanet ((List.range n).map f) i = f i :=
  getD_range_map f _ h

theorem buildTraj_length (sq : ℚ → ℚ) : ∀ (n : ℕ) (g : Game),
    (buildTraj sq n g).length = n
  | 0, _ => rfl
  | n + 1, g => by simp [buildTraj, buildTraj_length sq n]

theorem buildTraj_eq_range_map (sq : ℚ → ℚ) : ∀ (n : ℕ) (g : Game),
    buildTraj sq n g = (List.range n).map fun k => (Game.tick sq)^[k] g
  | 0, _ => rfl
  | n + 1, g => by
    rw [buildTraj, buildTraj_eq_range_map sq n (Game.tick sq g), List.range_succ_eq_map,
      List.map_cons, List.map_map]
    refine congrArg₂ List.cons rfl ?_
    exact List.map_congr_left fun k _ => (Function.iterate_succ_apply _ _ _).symm

theorem popFronts_eq_map_tail (n : ℕ) (ls : List (List Vector2)) (h : ls.length ≤ n) :
    popFronts n ls = ls.map List.tail := by
  induction ls generalizing n with
  | nil => cases n <;> rfl
  | cons l ls ih =>
    cases n with
    | zero => simp at h
    | succ m => simpa [popFronts] using ih m (by simpa using h)

theorem pushBacks_length (xs : List Vector2) (ls : List (List Vector2)) :
    (pushBacks xs ls).length = ls.length := by
  induction ls generalizing xs with
  | nil => cases xs <;> rfl
  | cons l ls ih =>
    cases xs with
    | nil => rfl
    | cons x xs' => simp [pushBacks, ih]

theorem pushBacks_range_map {n : ℕ} (x : ℕ → Vector2) (l : ℕ → List Vector2) :
    ∀ (s : ℕ), pushBacks ((List.range' s n).map x) ((List.range' s n).map l) =
      (List.range' s n).map fun i => l i ++ [x i] := by
  induction n with
  | zero => intro s; rfl
  | succ m ih =>
    intro s
    rw [List.range'_succ]
    simpa [pushBacks] using ih (s + 1)

/-! ## Cache length invariant (equal lengths of all tracked sequences) -/

/-- All tracked cache sequences have the same length, and there is one
planet sequence pair per planet. -/
def EqLens (g : Game) : Prop :=
  g.cached_trajectories.player_velocities.length =
    g.cached_trajectories.player_positions.length ∧
  g.cached_trajectories.player_rotations.length =
    g.cached_trajectories.player_positions.length ∧
  g.cached_trajectories.planet_positions.length = g.planets.length ∧
  g.cached_trajectories.planet_velocities.length = g.planets.length ∧
  ∀ i < g.planets.length,
    (getL g.cached_trajectories.planet_positions i).length =
      g.cached_trajectories.player_positions.length ∧
    (getL g.cached_trajectories.planet_velocities i).length =
      g.cached_trajectories.player_positions.length

instance (g : Game) : Decidable (EqLens g) := by
  unfold EqLens
  infer_instance

theorem recalcWith_eqLens (sq : ℚ → ℚ) (m : ℕ) (g : Game) :
    EqLens (Game.recalcWith sq m g) := by
  refine ⟨by simp [Game.recalcWith], by simp [Game.recalcWith],
          by simp [Game.recalcWith], by simp [Game.recalcWith], ?_⟩
  intro i hi
  have hi' : i < (Game.recalcWith sq m g).planets.length := hi
  simp only [Game.recalcWith] at hi' ⊢
  rw [getL_range_map _ hi', getL_range_map _ hi']
  simp

theorem getL_cons_zero (a : List Vector2) (ls : List (List Vector2)) :
    getL (a :: ls) 0 = a := by simp [getL]

theorem getL_cons_succ (a : List Vector2) (ls : List (List Vector2)) (j : ℕ) :
    getL (a :: ls) (j + 1) = getL ls j := by simp [getL]

theorem getVec_cons_zero (a : Vector2) (l : List Vector2) : getVec (a :: l) 0 = a := by
  simp [getVec]

theorem getVec_cons_succ (a : Vector2) (l : List Vector2) (j : ℕ) :
    getVec (a :: l) (j + 1) = getVec l j := by simp [getVec]

theorem getL_map_tail (ls : List (List Vector2)) {i : ℕ} (h : i < ls.length) :
    getL (ls.map List.tail) i = (getL ls i).tail := by
  rw [getL, getL, List.getD_eq_getElem?_getD, List.getD_eq_getElem?_getD, List.getElem?_map,
    List.getElem?_eq_getElem h]
  rfl

theorem getL_pushBacks (xs : List Vector2) (ls : List (List Vector2)) :
    ∀ i, i < ls.length →
      getL (pushBacks xs ls) i =
        if i < xs.length then getL ls i ++ [getVec xs i] else getL ls i := by
  induction ls generalizing xs with
  | nil => intro i hi; simp at hi
  | cons l ls ih =>
    intro i hi
    cases xs with
    | nil => simp [pushBacks]
    | cons x xs' =>
      cases i with
      | zero => simp [pushBacks, getL_cons_zero, getVec_cons_zero]
      | succ j =>
        rw [pushBacks, getL_cons_succ, getL_cons_succ, ih xs' j (by simpa using hi)]
        simp [getVec_cons_succ, Nat.succ_lt_succ_iff]

/-- Shape of the extension loop: every player sequence grows by `k`, the
planet sequence counts and the validity flag are untouched, and each of the
first `nP` planet sequences grows by `k`. -/
theorem extendLoop_shape (sq : ℚ → ℚ) : ∀ (k : ℕ) (pg : Game) (c : CachedTrajectories) (nP : ℕ),
    (extendLoop sq k pg c nP).player_positions.length = c.player_positions.length + k ∧
    (extendLoop sq k pg c nP).player_velocities.length = c.player_velocities.length + k ∧
    (extendLoop sq k pg c nP).player_rotations.length = c.player_rotations.length + k ∧
    (extendLoop sq k pg c nP).planet_positions.length = c.planet_positions.length ∧
    (extendLoop sq k pg c nP).planet_velocities.length = c.planet_velocities.length ∧
    (extendLoop sq k pg c nP).is_valid = c.is_valid ∧
    (∀ i, i < nP → i < c.planet_positions.length →
      (getL (extendLoop sq k pg c nP).planet_positions i).length =
        (getL c.planet_positions i).length + k) ∧
    (∀ i, i < nP → i < c.planet_velocities.length →
      (getL (extendLoop sq k pg c nP).planet_velocities i).length =
        (getL c.planet_velocities i).length + k)
  | 0, pg, c, nP => by simp [extendLoop]
  | k + 1, pg, c, nP => by
    rw [extendLoop]
    obtain ⟨h1, h2, h3, h4, h5, h6, h7, h8⟩ :=
      extendLoop_shape sq k (Game.tick sq pg) (appendObs (Game.tick sq pg) c nP) nP
    refine ⟨by rw [h1]; simp [appendObs]; omega, by rw [h2]; simp [appendObs]; omega,
      by rw [h3]; simp [appendObs]; omega, by rw [h4]; simp [appendObs, pushBacks_length],
      by rw [h5]; simp [appendObs, pushBacks_length], by rw [h6]; rfl, ?_, ?_⟩
    · intro i hiP hic
      rw [h7 i hiP (by simp only [appendObs, pushBacks_length]; exact hic)]
      simp only [appendObs]
      rw [getL_pushBacks _ _ i hic, if_pos (by simpa using hiP)]
      simp
      omega
    · intro i hiP hic
      rw [h8 i hiP (by simp only [appendObs, pushBacks_length]; exact hic)]
      simp only [appendObs]
      rw [getL_pushBacks _ _ i hic, if_pos (by simpa using hiP)]
      simp
      omega

theorem advance_eqLens {g g' : Game} (hE : EqLens g)
    (h : g.advance_trajectory = some g') : EqLens g' := by
  obtain ⟨hpv, hpr, hcp, hcv, hper⟩ := hE
  unfold Game.advance_trajectory at h
  split_ifs at h with hG hR
  · injection h with h
    subst h
    exact ⟨hpv, hpr, hcp, hcv, hper⟩
  · injection h with h
    subst h
    have hn : g.cached_trajectories.planet_positions.length ≤ g.planets.length := le_of_eq hcp
    have hn' : g.cached_trajectories.planet_velocities.length ≤ g.planets.length := le_of_eq hcv
    refine ⟨?_, ?_, ?_, ?_, ?_⟩
    · simp [advanceResult, List.length_tail, hpv]
    · simp [advanceResult, List.length_tail, hpr]
    · simp [advanceResult, popFronts_eq_map_tail _ _ hn, hcp]
    · simp [advanceResult, popFronts_eq_map_tail _ _ hn', hcv]
    · intro i hi
      simp only [advanceResult, List.length_map, List.length_range] at hi ⊢
      rw [popFronts_eq_map_tail _ _ hn, popFronts_eq_map_tail _ _ hn',
        getL_map_tail _ (hcp ▸ hi), getL_map_tail _ (hcv ▸ hi)]
      simp [List.length_tail, (hper i hi).1, (hper i hi).2]

theorem extend_eqLens {sq : ℚ → ℚ} {g g' : Game} {n : ℕ} (hE : EqLens g)
    (h : g.extend_trajectories sq n = some g') : EqLens g' := by
  obtain ⟨hpv, hpr, hcp, hcv, hper⟩ := hE
  unfold Game.extend_trajectories at h
  split_ifs at h with h0 hR
  · injection h with h
    subst h
    exact ⟨hpv, hpr, hcp, hcv, hper⟩
  · injection h with h
    subst h
    obtain ⟨h1, h2, h3, h4, h5, h6, h7, h8⟩ :=
      extendLoop_shape sq n (extendSeed g) g.cached_trajectories g.planets.length
    refine ⟨?_, ?_, ?_, ?_, ?_⟩
    · simp only [h1, h2, hpv]
    · simp only [h1, h3, hpr]
    · simpa [h4] using hcp
    · simpa [h5] using hcv
    · intro i hi
      refine ⟨?_, ?_⟩
      · rw [h7 i hi (hcp ▸ hi), h1, (hper i hi).1]
      · rw [h8 i hi (hcv ▸ hi), h1, (hper i hi).2]

theorem apply_eqLens (sq sinf cosf : ℚ → ℚ) (s : InputState) (g : Game) (dt : ℚ)
    (hE : EqLens g) : EqLens (s.apply_to_game sq sinf cosf g dt) := by
  unfold InputState.apply_to_game
  cases s.thrust with
  | true => simp only [if_true]; exact recalcWith_eqLens sq _ _
  | false =>
    simp only [if_false, Bool.false_eq_true]
    split_ifs <;> exact hE

/-! ## C8: the cache length invariant is established and preserved -/

/-- C8: after construction's initial recompute, every operation
(`recalculate_trajectories`, `advance_trajectory`, `extend_trajectories`,
`apply_to_game`) preserves the invariant that all tracked cache sequences
have equal length, with one planet sequence pair per planet. -/
theorem cache_equal_lengths_invariant :
    (∀ (sq : ℚ → ℚ) (ps : List Planet) (pl : Player), EqLens (Game.new sq ps pl)) ∧
    (∀ (sq : ℚ → ℚ) (g : Game), EqLens (g.recalculate_trajectories sq)) ∧
    (∀ g g' : Game, EqLens g → g.advance_trajectory = some g' → EqLens g') ∧
    (∀ (sq : ℚ → ℚ) (g g' : Game) (n : ℕ), EqLens g →
      g.extend_trajectories sq n = some g' → EqLens g') ∧
    (∀ (sq sinf cosf : ℚ → ℚ) (s : InputState) (g : Game) (dt : ℚ), EqLens g →
      EqLens (s.apply_to_game sq sinf cosf g dt)) :=
  ⟨fun sq _ _ => recalcWith_eqLens sq _ _,
   fun sq _ => recalcWith_eqLens sq _ _,
   fun _ _ hE h => advance_eqLens hE h,
   fun _ _ _ _ hE h => extend_eqLens hE h,
   fun sq sinf cosf s g dt hE => apply_eqLens sq sinf cosf s g dt hE⟩

/-- A concrete game with an empty but valid cache (used for witnesses and
the C3 counterexample).  Integer rationals keep kernel evaluation cheap. -/
def gEmptyCache : Game :=
  ⟨1, [], ⟨⟨0, 0⟩, ⟨1, 0⟩, 1, 0⟩, ⟨[], [], [], [], [], true⟩⟩

/-- Witness for C8: the advance-preservation conjunct applied to a concrete
well-formed game. -/
theorem cache_equal_lengths_invariant_witness :
    EqLens gEmptyCache ∧ gEmptyCache.advance_trajectory = some gEmptyCache ∧
      EqLens gEmptyCache :=
  ⟨by decide, by decide,
   cache_equal_lengths_invariant.2.2.1 gEmptyCache gEmptyCache (by decide) (by decide)⟩

/-! ## C3: behaviour against an empty cache -/

/-- C3 (amended): `advance_trajectory` against an empty cache is a guarded
no-op, but `extend_trajectories` with `n ≥ 1` against an empty cache is not
guarded: `player_positions.len() - 1` underflows and the subsequent indexing
panics (modelled by `none`). -/
theorem empty_cache_advance_noop_extend_panics :
    (∀ g : Game, g.cached_trajectories.player_positions = [] →
      g.advance_trajectory = some g) ∧
    (∀ (sq : ℚ → ℚ) (g : Game) (n : ℕ), 1 ≤ n →
      g.cached_trajectories.player_positions = [] →
      g.extend_trajectories sq n = none) := by
  constructor
  · intro g h
    unfold Game.advance_trajectory
    rw [if_pos (Or.inr h)]
  · intro sq g n hn h
    unfold Game.extend_trajectories
    rw [if_neg (by omega), if_neg]
    intro hR
    exact hR.1 h

/-- Counterexample for C3 as stated: extending an empty cache by one step is
a panic (`none`), not a no-op returning the unchanged game. -/
theorem empty_cache_extend_counterexample :
    gEmptyCache.extend_trajectories (fun q => q) 1 = none ∧
      gEmptyCache.extend_trajectories (fun q => q) 1 ≠ some gEmptyCache := by
  constructor <;> decide

/-- Witness for the amended C3 at a concrete empty-cache game. -/
theorem empty_cache_advance_noop_extend_panics_witness :
    gEmptyCache.cached_trajectories.player_positions = [] ∧
      gEmptyCache.advance_trajectory = some gEmptyCache ∧
      gEmptyCache.extend_trajectories (fun q => q + 1) 1 = none :=
  ⟨rfl, empty_cache_advance_noop_extend_panics.1 gEmptyCache rfl,
   empty_cache_advance_noop_extend_panics.2 (fun q => q + 1) gEmptyCache 1 (by decide) rfl⟩

/-! ## The ideal predicted trajectory and cache windows -/

attribute [ext] Vector2 Planet Player CachedTrajectories Game

/-- The ideal predicted trajectory of origin state `g0`: the scratch
simulation state after `k` ticks, exactly as the recompute loop of
`Game::recalculate_trajectories` produces it. -/
def trajState (sq : ℚ → ℚ) (g0 : Game) (k : ℕ) : Game :=
  (Game.tick sq)^[k] (predictedInit g0)

/-- Physics-metadata agreement: same planet count, masses and radii, same
player mass and rotation, same gravitational constant and cache. -/
def MetaEq (a b : Game) : Prop :=
  a.planets.length = b.planets.length ∧
  (∀ i < b.planets.length,
    (getPlanet a.planets i).mass = (getPlanet b.planets i).mass ∧
    (getPlanet a.planets i).radius = (getPlanet b.planets i).radius) ∧
  a.player.mass = b.player.mass ∧
  a.player.rotation = b.player.rotation ∧
  a.big_gravity = b.big_gravity ∧
  a.cached_trajectories = b.cached_trajectories

theorem metaEq_refl (a : Game) : MetaEq a a :=
  ⟨rfl, fun _ _ => ⟨rfl, rfl⟩, rfl, rfl, rfl, rfl⟩

theorem metaEq_trans {a b c : Game} (h1 : MetaEq a b) (h2 : MetaEq b c) : MetaEq a c := by
  obtain ⟨l1, m1, pm1, pr1, g1, c1⟩ := h1
  obtain ⟨l2, m2, pm2, pr2, g2, c2⟩ := h2
  refine ⟨l1.trans l2, ?_, pm1.trans pm2, pr1.trans pr2, g1.trans g2, c1.trans c2⟩
  intro i hi
  exact ⟨((m1 i (l2 ▸ hi)).1).trans (m2 i hi).1, ((m1 i (l2 ▸ hi)).2).trans (m2 i hi).2⟩

theorem update_metaEq (sq : ℚ → ℚ) (g : Game) (dt : ℚ) : MetaEq (Game.update sq g dt) g := by
  obtain ⟨F, hF, hFi⟩ :
      ∃ F, (Game.update sq g dt).planets = (List.range g.planets.length).map F ∧
        ∀ i, (F i).mass = (getPlanet g.planets i).mass ∧
          (F i).radius = (getPlanet g.planets i).radius :=
    ⟨_, rfl, fun _ => ⟨rfl, rfl⟩⟩
  refine ⟨by rw [hF]; simp, ?_, rfl, rfl, rfl, rfl⟩
  intro i hi
  rw [hF, getPlanet_range_map _ hi]
  exact hFi i

theorem iterate_metaEq (f : Game → Game) (hf : ∀ g, MetaEq (f g) g) :
    ∀ (k : ℕ) (g : Game), MetaEq (f^[k] g) g := by
  intro k
  induction k with
  | zero => intro g; exact metaEq_refl g
  | succ m ih =>
    intro g
    rw [Function.iterate_succ_apply]
    exact metaEq_trans (ih (f g)) (hf g)

theorem tick_metaEq (sq : ℚ → ℚ) (g : Game) : MetaEq (Game.tick sq g) g :=
  iterate_metaEq _ (fun g' => update_metaEq sq g' _) TRAJECTORY_SUBSTEPS g

theorem trajState_metaEq (sq : ℚ → ℚ) (g0 : Game) (k : ℕ) :
    MetaEq (trajState sq g0 k) (predictedInit g0) :=
  iterate_metaEq _ (tick_metaEq sq) k (predictedInit g0)

/-- The cache contents holding the window `[d, d+L)` of the ideal predicted
trajectory of `g0`. -/
def windowCache (sq : ℚ → ℚ) (g0 : Game) (d L : ℕ) : CachedTrajectories :=
  { player_positions := (List.range L).map fun k => (trajState sq g0 (d + k)).player.position
    player_velocities := (List.range L).map fun k => (trajState sq g0 (d + k)).player.velocity
    player_rotations := (List.range L).map fun k => (trajState sq g0 (d + k)).player.rotation
    planet_positions := (List.range g0.planets.length).map fun i =>
      (List.range L).map fun k => (getPlanet (trajState sq g0 (d + k)).planets i).position
    planet_velocities := (List.range g0.planets.length).map fun i =>
      (List.range L).map fun k => (getPlanet (trajState sq g0 (d + k)).planets i).velocity
    is_valid := true }

/-- `g` holds the window `[d, d+L)` of the predicted trajectory of the origin
state `g0`, and its physics parameters (gravitational constant, player mass,
planet count, planet masses and radii) are unchanged since the build. -/
def IsWindow (sq : ℚ → ℚ) (g0 : Game) (d L : ℕ) (g : Game) : Prop :=
  g.big_gravity = g0.big_gravity ∧
  g.player.mass = g0.player.mass ∧
  g.planets.length = g0.planets.length ∧
  (∀ i < g0.planets.length,
    (getPlanet g.planets i).mass = (getPlanet g0.planets i).mass ∧
    (getPlanet g.planets i).radius = (getPlanet g0.planets i).radius) ∧
  g.cached_trajectories = windowCache sq g0 d L

/-- A full recompute leaves the present state untouched and installs the
window `[0, m)` of the predicted trajectory. -/
theorem recalcWith_isWindow (sq : ℚ → ℚ) (m : ℕ) (g : Game) :
    (Game.recalcWith sq m g).player = g.player ∧
    (Game.recalcWith sq m g).planets = g.planets ∧
    (Game.recalcWith sq m g).big_gravity = g.big_gravity ∧
    IsWindow sq g 0 m (Game.recalcWith sq m g) := by
  refine ⟨rfl, rfl, rfl, rfl, rfl, rfl, fun _ _ => ⟨rfl, rfl⟩, ?_⟩
  show (Game.recalcWith sq m g).cached_trajectories = windowCache sq g 0 m
  unfold Game.recalcWith windowCache
  simp only [buildTraj_eq_range_map, List.map_map]
  refine CachedTrajectories.ext ?_ ?_ ?_ ?_ ?_ rfl
  · exact List.map_congr_left fun k _ => by rw [Nat.zero_add]; rfl
  · exact List.map_congr_left fun k _ => by rw [Nat.zero_add]; rfl
  · exact List.map_congr_left fun k _ => by rw [Nat.zero_add]; rfl
  · refine List.map_congr_left fun i _ => ?_
    exact List.map_congr_left fun k _ => by rw [Nat.zero_add]; rfl
  · refine List.map_congr_left fun i _ => ?_
    exact List.map_congr_left fun k _ => by rw [Nat.zero_add]; rfl

theorem tail_range_map {α : Type} (f : ℕ → α) (L : ℕ) :
    ((List.range (L + 1)).map f).tail = (List.range L).map fun k => f (k + 1) := by
  rw [List.range_succ_eq_map, List.map_cons, List.tail_cons, List.map_map]
  exact List.map_congr_left fun k _ => rfl

/-- Advancing a game that holds a non-empty trajectory window succeeds,
commits the front cache entry (tick `d`) as the new present
positions/velocities (rotation untouched), and leaves the window `[d+1, d+1+L)`. -/
theorem advance_isWindow (sq : ℚ → ℚ) (g0 : Game) (d L : ℕ) (g : Game)
    (hw : IsWindow sq g0 d (L + 1) g) :
    g.advance_trajectory = some (advanceResult g) ∧
    IsWindow sq g0 (d + 1) L (advanceResult g) ∧
    (advanceResult g).player.position = (trajState sq g0 d).player.position ∧
    (advanceResult g).player.velocity = (trajState sq g0 d).player.velocity ∧
    (advanceResult g).player.rotation = g.player.rotation ∧
    (advanceResult g).player.mass = g.player.mass ∧
    (advanceResult g).big_gravity = g.big_gravity ∧
    (advanceResult g).planets.length = g.planets.length ∧
    (∀ i < g0.planets.length,
      (getPlanet (advanceResult g).planets i).position =
        (getPlanet (trajState sq g0 d).planets i).position ∧
      (getPlanet (advanceResult g).planets i).velocity =
        (getPlanet (trajState sq g0 d).planets i).velocity) := by
  obtain ⟨hG, hm, hn, hmr, hc⟩ := hw
  have hval : g.cached_trajectories.is_valid = true := by rw [hc]; rfl
  have hne : g.cached_trajectories.player_positions ≠ [] := by
    rw [hc]; simp [windowCache]
  have hcount : g.cached_trajectories.planet_positions.length = g0.planets.length := by
    rw [hc]; simp [windowCache]
  have hcount' : g.cached_trajectories.planet_velocities.length = g0.planets.length := by
    rw [hc]; simp [windowCache]
  have hok : advanceReadsOk g := by
    refine ⟨by rw [hc]; simp [windowCache], ?_⟩
    intro i hi
    have hi0 : i < g0.planets.length := hn ▸ hi
    refine ⟨by rw [hcount]; exact hi0, by rw [hcount']; exact hi0, ?_, ?_⟩
    · rw [hc]
      show getL ((List.range g0.planets.length).map _) i ≠ []
      rw [getL_range_map _ hi0]
      simp
    · rw [hc]
      show getL ((List.range g0.planets.length).map _) i ≠ []
      rw [getL_range_map _ hi0]
      simp
  have hsome : g.advance_trajectory = some (advanceResult g) := by
    unfold Game.advance_trajectory
    rw [if_neg, if_pos hok]
    rintro (h | h)
    · rw [hval] at h; cases h
    · exact hne h
  have hpos0 : getVec g.cached_trajectories.player_positions 0 =
      (trajState sq g0 d).player.position := by
    rw [hc]
    show getVec ((List.range (L + 1)).map _) 0 = _
    rw [getVec_range_map _ (Nat.succ_pos L)]
    exact congrArg (fun m => (trajState sq g0 m).player.position) (Nat.add_zero d)
  have hvel0 : getVec g.cached_trajectories.player_velocities 0 =
      (trajState sq g0 d).player.velocity := by
    rw [hc]
    show getVec ((List.range (L + 1)).map _) 0 = _
    rw [getVec_range_map _ (Nat.succ_pos L)]
    exact congrArg (fun m => (trajState sq g0 m).player.velocity) (Nat.add_zero d)
  refine ⟨hsome, ⟨hG, hm, ?_, ?_, ?_⟩, hpos0, hvel0, rfl, rfl, rfl, ?_, ?_⟩
  · show ((List.range g.planets.length).map _).length = g0.planets.length
    rw [List.length_map, List.length_range]
    exact hn
  · intro i hi
    have hig : i < g.planets.length := hn ▸ hi
    show (getPlanet ((List.range g.planets.length).map _) i).mass = _ ∧
      (getPlanet ((List.range g.planets.length).map _) i).radius = _
    rw [getPlanet_range_map _ hig]
    exact hmr i hi
  · show CachedTrajectories.mk _ _ _ _ _ _ = _
    rw [hc]
    unfold windowCache
    refine CachedTrajectories.ext ?_ ?_ ?_ ?_ ?_ rfl
    · show ((List.range (L + 1)).map _).tail = _
      rw [tail_range_map]
      exact List.map_congr_left fun k _ =>
        congrArg (fun m => (trajState sq g0 m).player.position) (by omega)
    · show ((List.range (L + 1)).map _).tail = _
      rw [tail_range_map]
      exact List.map_congr_left fun k _ =>
        congrArg (fun m => (trajState sq g0 m).player.velocity) (by omega)
    · show ((List.range (L + 1)).map _).tail = _
      rw [tail_range_map]
      exact List.map_congr_left fun k _ =>
        congrArg (fun m => (trajState sq g0 m).player.rotation) (by omega)
    · show popFronts g.planets.length ((List.range g0.planets.length).map _) = _
      rw [popFronts_eq_map_tail _ _ (by rw [List.length_map, List.length_range]; exact le_of_eq hn.symm),
        List.map_map]
      refine List.map_congr_left fun i _ => ?_
      show ((List.range (L + 1)).map _).tail = _
      rw [tail_range_map]
      exact List.map_congr_left fun k _ =>
        congrArg (fun m => (getPlanet (trajState sq g0 m).planets i).position) (by omega)
    · show popFronts g.planets.length ((List.range g0.planets.length).map _) = _
      rw [popFronts_eq_map_tail _ _ (by rw [List.length_map, List.length_range]; exact le_of_eq hn.symm),
        List.map_map]
      refine List.map_congr_left fun i _ => ?_
      show ((List.range (L + 1)).map _).tail = _
      rw [tail_range_map]
      exact List.map_congr_left fun k _ =>
        congrArg (fun m => (getPlanet (trajState sq g0 m).planets i).velocity) (by omega)
  · show ((List.range g.planets.length).map _).length = g.planets.length
    rw [List.length_map, List.length_range]
  · intro i hi
    have hig : i < g.planets.length := hn ▸ hi
    show (getPlanet ((List.range g.planets.length).map _) i).position = _ ∧
      (getPlanet ((List.range g.planets.length).map _) i).velocity = _
    rw [getPlanet_range_map _ hig]
    constructor
    · show getVec (getL g.cached_trajectories.planet_positions i) 0 = _
      rw [hc]
      show getVec (getL ((List.range g0.planets.length).map _) i) 0 = _
      rw [getL_range_map _ hi, getVec_range_map _ (Nat.succ_pos L)]
      exact congrArg (fun m => (getPlanet (trajState sq g0 m).planets i).position) (Nat.add_zero d)
    · show getVec (getL g.cached_trajectories.planet_velocities i) 0 = _
      rw [hc]
      show getVec (getL ((List.range g0.planets.length).map _) i) 0 = _
      rw [getL_range_map _ hi, getVec_range_map _ (Nat.succ_pos L)]
      exact congrArg (fun m => (getPlanet (trajState sq g0 m).planets i).velocity) (Nat.add_zero d)

theorem getPlanet_eq_getElem (ps : List Planet) {i : ℕ} (h : i < ps.length) :
    getPlanet ps i = ps[i] := by
  rw [getPlanet, List.getD_eq_getElem?_getD, List.getElem?_eq_getElem h]
  rfl

theorem self_eq_range_map_getL (ls : List (List Vector2)) :
    (List.range ls.length).map (fun i => getL ls i) = ls := by
  apply List.ext_getElem
  · simp
  · intro i h1 h2
    rw [List.getElem_map, List.getElem_range, getL, List.getD_eq_getElem?_getD,
      List.getElem?_eq_getElem h2]
    rfl

/-- The scratch game `extend_trajectories` seeds from the tail of a window
cache is exactly the ideal trajectory state at the window's last tick. -/
theorem extendSeed_eq_trajState (sq : ℚ → ℚ) (g0 : Game) (d L : ℕ) (g : Game)
    (hw : IsWindow sq g0 d L g) (hL : 1 ≤ L) :
    extendSeed g = trajState sq g0 (d + (L - 1)) := by
  obtain ⟨hG, hm, hn, hmr, hc⟩ := hw
  obtain ⟨ml, mmr, mpm, mpr, mG, mc⟩ := trajState_metaEq sq g0 (d + (L - 1))
  have hlen : g.cached_trajectories.player_positions.length = L := by
    rw [hc]; simp [windowCache]
  have hL1 : L - 1 < L := by omega
  refine Game.ext ?_ ?_ ?_ ?_
  · show g.big_gravity = _
    rw [mG]
    exact hG
  · show (List.range g.planets.length).map _ = _
    apply List.ext_getElem
    · rw [List.length_map, List.length_range, ml]
      exact hn
    · intro i h1 h2
      rw [List.length_map, List.length_range] at h1
      have hi0 : i < g0.planets.length := hn ▸ h1
      rw [List.getElem_map, List.getElem_range, ← getPlanet_eq_getElem _ h2]
      refine Planet.ext ?_ ?_ ?_ ?_
      · exact ((hmr i hi0).2).trans ((mmr i hi0).2).symm
      · exact ((hmr i hi0).1).trans ((mmr i hi0).1).symm
      · show getVec (getL g.cached_trajectories.planet_positions i) _ = _
        rw [hlen, hc]
        show getVec (getL ((List.range g0.planets.length).map _) i) (L - 1) = _
        rw [getL_range_map _ hi0, getVec_range_map _ hL1]
      · show getVec (getL g.cached_trajectories.planet_velocities i) _ = _
        rw [hlen, hc]
        show getVec (getL ((List.range g0.planets.length).map _) i) (L - 1) = _
        rw [getL_range_map _ hi0, getVec_range_map _ hL1]
  · refine Player.ext ?_ ?_ ?_ ?_
    · show getVec g.cached_trajectories.player_positions _ = _
      rw [hlen, hc]
      show getVec ((List.range L).map _) (L - 1) = _
      rw [getVec_range_map _ hL1]
    · show getVec g.cached_trajectories.player_velocities _ = _
      rw [hlen, hc]
      show getVec ((List.range L).map _) (L - 1) = _
      rw [getVec_range_map _ hL1]
    · show g.player.mass = _
      rw [mpm]
      exact hm
    · show g.cached_trajectories.player_rotations.getD _ 0 = _
      rw [hlen, hc]
      show ((List.range L).map _).getD (L - 1) 0 = _
      rw [getD_range_map _ _ hL1]
  · show emptyCache = _
    exact mc.symm

/-- Explicit description of the extension loop: every sequence is the old
contents followed by the observations of the scratch states after
`1, …, k` further ticks. -/
theorem extendLoop_window (sq : ℚ → ℚ) : ∀ (k : ℕ) (pg : Game) (c : CachedTrajectories)
    (nP : ℕ), c.planet_positions.length = nP → c.planet_velocities.length = nP →
    extendLoop sq k pg c nP = CachedTrajectories.mk
      (c.player_positions ++ (List.range k).map fun j =>
        ((Game.tick sq)^[j + 1] pg).player.position)
      (c.player_velocities ++ (List.range k).map fun j =>
        ((Game.tick sq)^[j + 1] pg).player.velocity)
      (c.player_rotations ++ (List.range k).map fun j =>
        ((Game.tick sq)^[j + 1] pg).player.rotation)
      ((List.range nP).map fun i => getL c.planet_positions i ++
        (List.range k).map fun j => (getPlanet ((Game.tick sq)^[j + 1] pg).planets i).position)
      ((List.range nP).map fun i => getL c.planet_velocities i ++
        (List.range k).map fun j => (getPlanet ((Game.tick sq)^[j + 1] pg).planets i).velocity)
      c.is_valid := by
  intro k
  induction k with
  | zero =>
    intro pg c nP h1 h2
    simp only [extendLoop, List.range_zero, List.map_nil, List.append_nil]
    refine CachedTrajectories.ext rfl rfl rfl ?_ ?_ rfl
    · rw [← h1]; exact (self_eq_range_map_getL _).symm
    · rw [← h2]; exact (self_eq_range_map_getL _).symm
  | succ m ih =>
    intro pg c nP h1 h2
    rw [extendLoop, ih (Game.tick sq pg) (appendObs (Game.tick sq pg) c nP) nP
      (by simp only [appendObs, pushBacks_length]; exact h1)
      (by simp only [appendObs, pushBacks_length]; exact h2)]
    simp only [appendObs, CachedTrajectories.mk.injEq]
    refine ⟨?_, ?_, ?_, ?_, ?_, trivial⟩
    · rw [List.append_assoc, List.range_succ_eq_map, List.map_cons, List.map_map,
        List.singleton_append]
      simp only [Nat.zero_add, Function.iterate_one]
      refine congrArg (fun l => c.player_positions ++ l) ?_
      refine congrArg₂ List.cons rfl ?_
      exact List.map_congr_left fun j _ => congrArg (fun s => s.player.position)
        (Function.iterate_succ_apply (Game.tick sq) (j + 1) pg).symm
    · rw [List.append_assoc, List.range_succ_eq_map, List.map_cons, List.map_map,
        List.singleton_append]
      simp only [Nat.zero_add, Function.iterate_one]
      refine congrArg (fun l => c.player_velocities ++ l) ?_
      refine congrArg₂ List.cons rfl ?_
      exact List.map_congr_left fun j _ => congrArg (fun s => s.player.velocity)
        (Function.iterate_succ_apply (Game.tick sq) (j + 1) pg).symm
    · rw [List.append_assoc, List.range_succ_eq_map, List.map_cons, List.map_map,
        List.singleton_append]
      simp only [Nat.zero_add, Function.iterate_one]
      refine congrArg (fun l => c.player_rotations ++ l) ?_
      refine congrArg₂ List.cons rfl ?_
      exact List.map_congr_left fun j _ => congrArg (fun s => s.player.rotation)
        (Function.iterate_succ_apply (Game.tick sq) (j + 1) pg).symm
    · refine List.map_congr_left fun i hi => ?_
      have hi' : i < nP := List.mem_range.mp hi
      rw [getL_pushBacks _ _ i (h1 ▸ hi'),
        if_pos (by rw [List.length_map, List.length_range]; exact hi'),
        getVec_range_map _ hi', List.append_assoc, List.range_succ_eq_map, List.map_cons,
        List.map_map, List.singleton_append]
      simp only [Nat.zero_add, Function.iterate_one]
      refine congrArg (fun l => getL c.planet_positions i ++ l) ?_
      refine congrArg₂ List.cons rfl ?_
      exact List.map_congr_left fun j _ => congrArg (fun s => (getPlanet s.planets i).position)
        (Function.iterate_succ_apply (Game.tick sq) (j + 1) pg).symm
    · refine List.map_congr_left fun i hi => ?_
      have hi' : i < nP := List.mem_range.mp hi
      rw [getL_pushBacks _ _ i (h2 ▸ hi'),
        if_pos (by rw [List.length_map, List.length_range]; exact hi'),
        getVec_range_map _ hi', List.append_assoc, List.range_succ_eq_map, List.map_cons,
        List.map_map, List.singleton_append]
      simp only [Nat.zero_add, Function.iterate_one]
      refine congrArg (fun l => getL c.planet_velocities i ++ l) ?_
      refine congrArg₂ List.cons rfl ?_
      exact List.map_congr_left fun j _ => congrArg (fun s => (getPlanet s.planets i).velocity)
        (Function.iterate_succ_apply (Game.tick sq) (j + 1) pg).symm

/-- Extending a game that holds a non-empty trajectory window succeeds,
leaves the present state untouched, and simply grows the window from
`[d, d+L)` to `[d, d+L+n)` — the appended entries continue the ideal
predicted trajectory of the origin state. -/
theorem extend_isWindow (sq : ℚ → ℚ) (g0 : Game) (d L n : ℕ) (g : Game)
    (hw : IsWindow sq g0 d L g) (hL : 1 ≤ L) :
    g.extend_trajectories sq n =
      some { g with cached_trajectories := windowCache sq g0 d (L + n) } ∧
    IsWindow sq g0 d (L + n) { g with cached_trajectories := windowCache sq g0 d (L + n) } := by
  obtain ⟨hG, hm, hn, hmr, hc⟩ := hw
  refine ⟨?_, hG, hm, hn, hmr, rfl⟩
  cases n with
  | zero =>
    rw [Game.extend_trajectories, if_pos rfl]
    rw [show L + 0 = L from rfl, ← hc]
  | succ m =>
    have hppl : g.cached_trajectories.player_positions.length = L := by
      rw [hc]; simp [windowCache]
    have hpvl : g.cached_trajectories.player_velocities.length = L := by
      rw [hc]; simp [windowCache]
    have hprl : g.cached_trajectories.player_rotations.length = L := by
      rw [hc]; simp [windowCache]
    have hcount : g.cached_trajectories.planet_positions.length = g0.planets.length := by
      rw [hc]; simp [windowCache]
    have hcount' : g.cached_trajectories.planet_velocities.length = g0.planets.length := by
      rw [hc]; simp [windowCache]
    have hok : extendReadsOk g := by
      refine ⟨?_, ?_, ?_, ?_⟩
      · intro h
        rw [h] at hppl
        simp at hppl
        omega
      · rw [hppl, hpvl]; omega
      · rw [hppl, hprl]; omega
      · intro i hi
        have hi0 : i < g0.planets.length := hn ▸ hi
        refine ⟨hcount ▸ hi0, hcount' ▸ hi0, ?_, ?_⟩
        · rw [hppl, hc]
          show L - 1 < (getL ((List.range g0.planets.length).map _) i).length
          rw [getL_range_map _ hi0]
          simp
          omega
        · rw [hppl, hc]
          show L - 1 < (getL ((List.range g0.planets.length).map _) i).length
          rw [getL_range_map _ hi0]
          simp
          omega
    rw [Game.extend_trajectories, if_neg (Nat.succ_ne_zero m), if_pos hok]
    refine congrArg some (congrArg (fun c => { g with cached_trajectories := c }) ?_)
    have hseed : extendSeed g = trajState sq g0 (d + (L - 1)) :=
      extendSeed_eq_trajState sq g0 d L g ⟨hG, hm, hn, hmr, hc⟩ hL
    have hIter : ∀ j : ℕ, (Game.tick sq)^[j + 1] (extendSeed g) = trajState sq g0 (d + (L + j)) := by
      intro j
      rw [hseed, trajState, trajState, ← Function.iterate_add_apply]
      exact congrArg (fun m => (Game.tick sq)^[m] (predictedInit g0)) (by omega)
    have hsplit : ∀ {α : Type} (f : ℕ → α),
        (List.range (L + (m + 1))).map f =
          (List.range L).map f ++ (List.range (m + 1)).map fun j => f (L + j) := by
      intro α f
      rw [List.range_add, List.map_append, List.map_map]
      rfl
    rw [hc, hn, extendLoop_window sq (m + 1) (extendSeed g) (windowCache sq g0 d L)
      g0.planets.length (by simp [windowCache]) (by simp [windowCache])]
    simp only [windowCache, CachedTrajectories.mk.injEq]
    refine ⟨?_, ?_, ?_, ?_, ?_, trivial⟩
    · rw [hsplit]
      refine congrArg₂ (· ++ ·) rfl (List.map_congr_left fun j _ => ?_)
      exact congrArg (fun s => s.player.position) (hIter j)
    · rw [hsplit]
      refine congrArg₂ (· ++ ·) rfl (List.map_congr_left fun j _ => ?_)
      exact congrArg (fun s => s.player.velocity) (hIter j)
    · rw [hsplit]
      refine congrArg₂ (· ++ ·) rfl (List.map_congr_left fun j _ => ?_)
      exact congrArg (fun s => s.player.rotation) (hIter j)
    · refine List.map_congr_left fun i hi => ?_
      have hi0 : i < g0.planets.length := List.mem_range.mp hi
      rw [getL_range_map _ hi0, hsplit]
      refine congrArg₂ (· ++ ·) rfl (List.map_congr_left fun j _ => ?_)
      exact congrArg (fun s => (getPlanet s.planets i).position) (hIter j)
    · refine List.map_congr_left fun i hi => ?_
      have hi0 : i < g0.planets.length := List.mem_range.mp hi
      rw [getL_range_map _ hi0, hsplit]
      refine congrArg₂ (· ++ ·) rfl (List.map_congr_left fun j _ => ?_)
      exact congrArg (fun s => (getPlanet s.planets i).velocity) (hIter j)

theorem getElem?_range_map {α : Type} (f : ℕ → α) {M j : ℕ} (h : j < M) :
    ((List.range M).map f)[j]? = some (f j) := by
  rw [List.getElem?_map, List.getElem?_range h]
  rfl

theorem head?_range_map {α : Type} (f : ℕ → α) {M : ℕ} (h : 0 < M) :
    ((List.range M).map f).head? = some (f 0) := by
  cases M with
  | zero => omega
  | succ m => rw [List.range_succ_eq_map, List.map_cons]; rfl

/-! ## Closed form of the trajectory for a planetless system -/

/-- With no planets, one integrator step moves the player ballistically:
`v` is unchanged, `x` gains `v·dt`. -/
theorem update_nil (sq : ℚ → ℚ) (bigG : ℚ) (pl : Player) (c : CachedTrajectories) (dt : ℚ) :
    Game.update sq ⟨bigG, [], pl, c⟩ dt =
      ⟨bigG, [], { pl with position := pl.position.add (pl.velocity.scale dt) }, c⟩ := by
  have hv : pl.velocity.add (Vector2.zero.scale dt) = pl.velocity := by
    refine Vector2.ext ?_ ?_ <;> simp [Vector2.add, Vector2.scale, Vector2.zero]
  unfold Game.update accelPhase planetPairAccels allPairs
  simp only [List.length_nil, List.range_zero, List.map_nil, List.foldl_nil,
    List.flatMap_nil, List.replicate_zero]
  rw [hv]

theorem update_iterate_nil (sq : ℚ → ℚ) (bigG : ℚ) (pl : Player) (c : CachedTrajectories)
    (dt : ℚ) : ∀ k : ℕ, (fun gg => Game.update sq gg dt)^[k] ⟨bigG, [], pl, c⟩ =
      ⟨bigG, [], { pl with position := pl.position.add (pl.velocity.scale ((k : ℚ) * dt)) }, c⟩ := by
  intro k
  induction k with
  | zero =>
    rw [Function.iterate_zero_apply]
    refine Game.ext rfl rfl (Player.ext ?_ rfl rfl rfl) rfl
    refine (Vector2.ext ?_ ?_).symm <;> simp [Vector2.add, Vector2.scale]
  | succ m ih =>
    rw [Function.iterate_succ_apply', ih, update_nil]
    refine Game.ext rfl rfl (Player.ext ?_ rfl rfl rfl) rfl
    refine Vector2.ext ?_ ?_ <;>
      · simp [Vector2.add, Vector2.scale]
        ring

theorem tick_nil (sq : ℚ → ℚ) (bigG : ℚ) (pl : Player) (c : CachedTrajectories) :
    Game.tick sq ⟨bigG, [], pl, c⟩ =
      ⟨bigG, [], { pl with position := pl.position.add (pl.velocity.scale TRAJECTORY_DT) }, c⟩ := by
  rw [Game.tick, update_iterate_nil]
  refine Game.ext rfl rfl (Player.ext ?_ rfl rfl rfl) rfl
  refine congrArg pl.position.add (congrArg pl.velocity.scale ?_)
  norm_num [TRAJECTORY_DT, TRAJECTORY_SUBSTEPS]

theorem trajState_nil (sq : ℚ → ℚ) (bigG : ℚ) (pl : Player) (c : CachedTrajectories) :
    ∀ k : ℕ, trajState sq ⟨bigG, [], pl, c⟩ k =
      ⟨bigG, [],
        { pl with position := pl.position.add (pl.velocity.scale ((k : ℚ) * TRAJECTORY_DT)) },
        emptyCache⟩ := by
  intro k
  induction k with
  | zero =>
    rw [trajState, Function.iterate_zero_apply]
    refine Game.ext rfl rfl (Player.ext ?_ rfl rfl rfl) rfl
    refine (Vector2.ext ?_ ?_).symm <;> simp [Vector2.add, Vector2.scale, predictedInit]
  | succ m ih =>
    rw [trajState, Function.iterate_succ_apply', ← trajState, ih, tick_nil]
    refine Game.ext rfl rfl (Player.ext ?_ rfl rfl rfl) rfl
    refine Vector2.ext ?_ ?_ <;>
      · simp [Vector2.add, Vector2.scale]
        ring

/-! ## C2: what cache index 0 represents -/

/-- Example sqrt stand-in (never relevant for planetless systems). -/
def sqEx : ℚ → ℚ := fun _ => 0

/-- Example player: at the origin, moving right at unit speed. -/
def pEx : Player := ⟨⟨0, 0⟩, ⟨1, 0⟩, 1, 0⟩

/-- The present state `Game::new` seeds before its initial recompute. -/
def baseEx : Game := ⟨1 / 1000000, [], pEx, emptyCache⟩

/-- A freshly constructed session with no planets. -/
def gEx : Game := Game.new sqEx [] pEx

theorem gEx_isWindow : IsWindow sqEx baseEx 0 TRAJECTORY_NUM_STEPS gEx :=
  (recalcWith_isWindow sqEx TRAJECTORY_NUM_STEPS baseEx).2.2.2

theorem gEx_player : gEx.player = pEx :=
  (recalcWith_isWindow sqEx TRAJECTORY_NUM_STEPS baseEx).1

/-- C2 (amended): immediately after a full recompute, cache index 0 equals
the present state (the recompute records the seed state before stepping);
index 0 is one tick ahead of the present only after `advance_trajectory`
commits the front entry: after an advance on a window cache, the new present
holds tick `d` and the new index 0 holds tick `d+1`, i.e. exactly one tick
(`Game.tick`) ahead of the new present. -/
theorem cache_front_semantics :
    (∀ (sq : ℚ → ℚ) (g : Game),
      (g.recalculate_trajectories sq).cached_trajectories.player_positions.head? =
        some g.player.position ∧
      (g.recalculate_trajectories sq).cached_trajectories.player_velocities.head? =
        some g.player.velocity ∧
      (g.recalculate_trajectories sq).cached_trajectories.player_rotations.head? =
        some g.player.rotation ∧
      ∀ i < g.planets.length,
        (getL (g.recalculate_trajectories sq).cached_trajectories.planet_positions i).head? =
          some (getPlanet g.planets i).position ∧
        (getL (g.recalculate_trajectories sq).cached_trajectories.planet_velocities i).head? =
          some (getPlanet g.planets i).velocity) ∧
    (∀ (sq : ℚ → ℚ) (g0 : Game) (d L : ℕ) (g : Game),
      IsWindow sq g0 d (L + 2) g →
      g.advance_trajectory = some (advanceResult g) ∧
      (advanceResult g).player.position = (trajState sq g0 d).player.position ∧
      (advanceResult g).player.velocity = (trajState sq g0 d).player.velocity ∧
      (advanceResult g).cached_trajectories.player_positions.head? =
        some ((Game.tick sq (trajState sq g0 d)).player.position) ∧
      (advanceResult g).cached_trajectories.player_velocities.head? =
        some ((Game.tick sq (trajState sq g0 d)).player.velocity) ∧
      ∀ i < g0.planets.length,
        (getL (advanceResult g).cached_trajectories.planet_positions i).head? =
          some (getPlanet (Game.tick sq (trajState sq g0 d)).planets i).position ∧
        (getL (advanceResult g).cached_trajectories.planet_velocities i).head? =
          some (getPlanet (Game.tick sq (trajState sq g0 d)).planets i).velocity) := by
  have hpos : 0 < TRAJECTORY_NUM_STEPS := by norm_num [TRAJECTORY_NUM_STEPS]
  constructor
  · intro sq g
    have hca := ((recalcWith_isWindow sq TRAJECTORY_NUM_STEPS g).2.2.2).2.2.2.2
    unfold Game.recalculate_trajectories
    rw [hca]
    unfold windowCache
    refine ⟨?_, ?_, ?_, ?_⟩
    · rw [head?_range_map _ hpos]
      rfl
    · rw [head?_range_map _ hpos]
      rfl
    · rw [head?_range_map _ hpos]
      rfl
    · intro i hi
      constructor
      · show (getL ((List.range g.planets.length).map _) i).head? = _
        rw [getL_range_map _ hi, head?_range_map _ hpos]
        rfl
      · show (getL ((List.range g.planets.length).map _) i).head? = _
        rw [getL_range_map _ hi, head?_range_map _ hpos]
        rfl
  · intro sq g0 d L g hw
    obtain ⟨hsome, hwin', hp, hv, _, _, _, _, _⟩ := advance_isWindow sq g0 d (L + 1) g hw
    have ht : trajState sq g0 (d + 1) = Game.tick sq (trajState sq g0 d) := by
      rw [trajState, trajState, Function.iterate_succ_apply']
    have hca := hwin'.2.2.2.2
    refine ⟨hsome, hp, hv, ?_, ?_, ?_⟩
    · rw [hca]
      unfold windowCache
      rw [head?_range_map _ (Nat.succ_pos L), ← ht]
    · rw [hca]
      unfold windowCache
      rw [head?_range_map _ (Nat.succ_pos L), ← ht]
    · intro i hi
      constructor
      · rw [hca]
        unfold windowCache
        show (getL ((List.range g0.planets.length).map _) i).head? = _
        rw [getL_range_map _ hi, head?_range_map _ (Nat.succ_pos L), ← ht]
      · rw [hca]
        unfold windowCache
        show (getL ((List.range g0.planets.length).map _) i).head? = _
        rw [getL_range_map _ hi, head?_range_map _ (Nat.succ_pos L), ← ht]

/-- Counterexample for C2 as stated: immediately after the full recompute in
`Game::new`, cache index 0 *equals* the present player position, and the
state one tick in the future differs from it — index 0 is not one tick
ahead. -/
theorem cache_front_counterexample :
    gEx.cached_trajectories.player_positions.head? = some gEx.player.position ∧
    (Game.tick sqEx (predictedInit gEx)).player.position ≠ gEx.player.position := by
  constructor
  · exact (cache_front_semantics.1 sqEx baseEx).1
  · have hpred : predictedInit gEx = baseEx := by
      unfold predictedInit
      refine Game.ext ?_ ?_ ?_ rfl
      · exact (recalcWith_isWindow sqEx TRAJECTORY_NUM_STEPS baseEx).2.2.1
      · exact (recalcWith_isWindow sqEx TRAJECTORY_NUM_STEPS baseEx).2.1
      · exact gEx_player
    rw [hpred, gEx_player]
    show (Game.tick sqEx ⟨1 / 1000000, [], pEx, emptyCache⟩).player.position ≠ pEx.position
    rw [tick_nil]
    intro h
    have hx := congrArg Vector2.x h
    simp [pEx, Vector2.add, Vector2.scale, TRAJECTORY_DT] at hx

/-- Witness for the amended C2 at a concrete window. -/
theorem cache_front_semantics_witness :
    IsWindow sqEx baseEx 0 (99998 + 2) gEx ∧
      (gEx.advance_trajectory = some (advanceResult gEx) ∧
        (advanceResult gEx).player.position = (trajState sqEx baseEx 0).player.position) := by
  have hw : IsWindow sqEx baseEx 0 (99998 + 2) gEx := gEx_isWindow
  have h := cache_front_semantics.2 sqEx baseEx 0 99998 gEx hw
  exact ⟨hw, h.1, h.2.1⟩

/-! ## C1: batch extension versus a longer recompute -/

/-- C1 (amended): from a window cache `[d, d+L)` (as produced by a build plus
`d` drains, possibly interleaved with extends) with `L ≥ 1` and unchanged
physics parameters, `extend_trajectories n` succeeds, leaves the present
state untouched, and appends exactly the entries a full recompute with
horizon `d+L+n` from the origin state places at indices `[d+L, d+L+n)` —
i.e. the appended entry at current index `L+k` equals the longer recompute's
entry at index `d+L+k` (for `d = 0` this is the index range `[L, L+n)` of
the original claim). -/
theorem extend_matches_longer_recompute (sq : ℚ → ℚ) (g0 : Game) (d L n : ℕ) (g : Game)
    (hw : IsWindow sq g0 d L g) (hL : 1 ≤ L) :
    ∃ g', g.extend_trajectories sq n = some g' ∧
      g'.player = g.player ∧ g'.planets = g.planets ∧ g'.big_gravity = g.big_gravity ∧
      IsWindow sq g0 d (L + n) g' ∧
      g'.cached_trajectories.player_positions.length = L + n ∧
      ∀ k < n,
        g'.cached_trajectories.player_positions[L + k]? =
          (Game.recalcWith sq (d + L + n) g0).cached_trajectories.player_positions[d + L + k]? ∧
        g'.cached_trajectories.player_velocities[L + k]? =
          (Game.recalcWith sq (d + L + n) g0).cached_trajectories.player_velocities[d + L + k]? ∧
        g'.cached_trajectories.player_rotations[L + k]? =
          (Game.recalcWith sq (d + L + n) g0).cached_trajectories.player_rotations[d + L + k]? ∧
        ∀ i < g0.planets.length,
          (getL g'.cached_trajectories.planet_positions i)[L + k]? =
            (getL (Game.recalcWith sq (d + L + n) g0).cached_trajectories.planet_positions
              i)[d + L + k]? ∧
          (getL g'.cached_trajectories.planet_velocities i)[L + k]? =
            (getL (Game.recalcWith sq (d + L + n) g0).cached_trajectories.planet_velocities
              i)[d + L + k]? := by
  obtain ⟨hsome, hwin'⟩ := extend_isWindow sq g0 d L n g hw hL
  have hcaR := ((recalcWith_isWindow sq (d + L + n) g0).2.2.2).2.2.2.2
  refine ⟨_, hsome, rfl, rfl, rfl, hwin', ?_, ?_⟩
  · show (windowCache sq g0 d (L + n)).player_positions.length = L + n
    simp [windowCache]
  · intro k hk
    have hkL : L + k < L + n := by omega
    have hkR : d + L + k < d + L + n := by omega
    have harith : ∀ (f : ℕ → Vector2), f (d + (L + k)) = f (0 + (d + L + k)) :=
      fun f => congrArg f (by omega)
    have harith' : ∀ (f : ℕ → ℚ), f (d + (L + k)) = f (0 + (d + L + k)) :=
      fun f => congrArg f (by omega)
    rw [hcaR]
    refine ⟨?_, ?_, ?_, ?_⟩
    · show (windowCache sq g0 d (L + n)).player_positions[L + k]? = _
      unfold windowCache
      rw [getElem?_range_map _ hkL, getElem?_range_map _ hkR]
      exact congrArg some (harith fun m => (trajState sq g0 m).player.position)
    · show (windowCache sq g0 d (L + n)).player_velocities[L + k]? = _
      unfold windowCache
      rw [getElem?_range_map _ hkL, getElem?_range_map _ hkR]
      exact congrArg some (harith fun m => (trajState sq g0 m).player.velocity)
    · show (windowCache sq g0 d (L + n)).player_rotations[L + k]? = _
      unfold windowCache
      rw [getElem?_range_map _ hkL, getElem?_range_map _ hkR]
      exact congrArg some (harith' fun m => (trajState sq g0 m).player.rotation)
    · intro i hi
      constructor
      · show (getL (windowCache sq g0 d (L + n)).planet_positions i)[L + k]? = _
        unfold windowCache
        rw [getL_range_map _ hi, getL_range_map _ hi, getElem?_range_map _ hkL,
          getElem?_range_map _ hkR]
        exact congrArg some (harith fun m => (getPlanet (trajState sq g0 m).planets i).position)
      · show (getL (windowCache sq g0 d (L + n)).planet_velocities i)[L + k]? = _
        unfold windowCache
        rw [getL_range_map _ hi, getL_range_map _ hi, getElem?_range_map _ hkL,
          getElem?_range_map _ hkR]
        exact congrArg some (harith fun m => (getPlanet (trajState sq g0 m).planets i).velocity)

/-- Counterexample for C1 as stated: build (`Game::new`, planetless, unit
velocity), drain once, extend by one.  The appended entry sits at current
index `L = 99999` and holds tick `100000`, while a recompute with horizon
`L + 1` from the same origin holds tick `99999` at index `L` — the claimed
index range `[L, L+n)` is off by the drain count. -/
theorem extend_matches_longer_recompute_counterexample :
    ∃ g1 g2, gEx.advance_trajectory = some g1 ∧
      g1.cached_trajectories.player_positions.length = 99999 ∧
      g1.extend_trajectories sqEx 1 = some g2 ∧
      g2.cached_trajectories.player_positions[99999]? ≠
        (Game.recalcWith sqEx (99999 + 1) gEx).cached_trajectories.player_positions[99999]? := by
  have hw0 : IsWindow sqEx baseEx 0 (99999 + 1) gEx := gEx_isWindow
  obtain ⟨hadv, hwin1, _⟩ := advance_isWindow sqEx baseEx 0 99999 gEx hw0
  obtain ⟨hext, _⟩ := extend_isWindow sqEx baseEx 1 99999 1 (advanceResult gEx) hwin1 (by omega)
  have hpred : predictedInit gEx = predictedInit baseEx := by
    unfold predictedInit
    refine Game.ext ?_ ?_ ?_ rfl
    · exact (recalcWith_isWindow sqEx TRAJECTORY_NUM_STEPS baseEx).2.2.1
    · exact (recalcWith_isWindow sqEx TRAJECTORY_NUM_STEPS baseEx).2.1
    · exact gEx_player
  have htraj : ∀ k : ℕ, trajState sqEx gEx k = trajState sqEx baseEx k := by
    intro k
    rw [trajState, trajState, hpred]
  refine ⟨advanceResult gEx, _, hadv, ?_, hext, ?_⟩
  · have := hwin1.2.2.2.2
    rw [this]
    simp [windowCache]
  · have hcaR := ((recalcWith_isWindow sqEx (99999 + 1) gEx).2.2.2).2.2.2.2
    rw [hcaR]
    show (windowCache sqEx baseEx 1 (99999 + 1)).player_positions[99999]? ≠ _
    unfold windowCache
    rw [getElem?_range_map _ (by omega : (99999 : ℕ) < 99999 + 1),
      getElem?_range_map _ (by omega : (99999 : ℕ) < 99999 + 1)]
    rw [htraj 99999]
    rw [show (1 : ℕ) + 99999 = 100000 from by omega]
    unfold baseEx
    rw [trajState_nil, trajState_nil]
    intro h
    have hx := congrArg Vector2.x (Option.some.inj h)
    simp [pEx, Vector2.add, Vector2.scale, TRAJECTORY_DT] at hx

/-- Witness for the amended C1 at a concrete window. -/
theorem extend_matches_longer_recompute_witness :
    IsWindow sqEx baseEx 0 TRAJECTORY_NUM_STEPS gEx ∧ 1 ≤ TRAJECTORY_NUM_STEPS ∧
      ∃ g', gEx.extend_trajectories sqEx 3 = some g' ∧
        g'.player = gEx.player ∧ g'.planets = gEx.planets ∧
        g'.big_gravity = gEx.big_gravity ∧
        IsWindow sqEx baseEx 0 (TRAJECTORY_NUM_STEPS + 3) g' ∧
        g'.cached_trajectories.player_positions.length = TRAJECTORY_NUM_STEPS + 3 ∧
        ∀ k < 3,
          g'.cached_trajectories.player_positions[TRAJECTORY_NUM_STEPS + k]? =
            (Game.recalcWith sqEx (0 + TRAJECTORY_NUM_STEPS + 3)
              baseEx).cached_trajectories.player_positions[0 + TRAJECTORY_NUM_STEPS + k]? ∧
          g'.cached_trajectories.player_velocities[TRAJECTORY_NUM_STEPS + k]? =
            (Game.recalcWith sqEx (0 + TRAJECTORY_NUM_STEPS + 3)
              baseEx).cached_trajectories.player_velocities[0 + TRAJECTORY_NUM_STEPS + k]? ∧
          g'.cached_trajectories.player_rotations[TRAJECTORY_NUM_STEPS + k]? =
            (Game.recalcWith sqEx (0 + TRAJECTORY_NUM_STEPS + 3)
              baseEx).cached_trajectories.player_rotations[0 + TRAJECTORY_NUM_STEPS + k]? ∧
          ∀ i < baseEx.planets.length,
            (getL g'.cached_trajectories.planet_positions i)[TRAJECTORY_NUM_STEPS + k]? =
              (getL (Game.recalcWith sqEx (0 + TRAJECTORY_NUM_STEPS + 3)
                baseEx).cached_trajectories.planet_positions i)[0 + TRAJECTORY_NUM_STEPS + k]? ∧
            (getL g'.cached_trajectories.planet_velocities i)[TRAJECTORY_NUM_STEPS + k]? =
              (getL (Game.recalcWith sqEx (0 + TRAJECTORY_NUM_STEPS + 3)
                baseEx).cached_trajectories.planet_velocities i)[0 + TRAJECTORY_NUM_STEPS + k]? :=
  ⟨gEx_isWindow, by norm_num [TRAJECTORY_NUM_STEPS],
   extend_matches_longer_recompute sqEx baseEx 0 TRAJECTORY_NUM_STEPS 3 gEx gEx_isWindow
     (by norm_num [TRAJECTORY_NUM_STEPS])⟩

/-! ## C4: drain correctness -/

/-- C4: on a valid, well-formed, non-empty cache, one `advance_trajectory`
call succeeds and (1) copies the pre-call index-0 entries of player
position/velocity and every planet's position/velocity into the present
state, (2) leaves the present rotation (and masses, radii, gravitational
constant) untouched, and (3) removes exactly one entry from the front of
every cached sequence, keeping the validity flag set. -/
theorem advance_trajectory_spec (g : Game)
    (hv : g.cached_trajectories.is_valid = true) (hE : EqLens g)
    (hne : g.cached_trajectories.player_positions ≠ []) :
    g.advance_trajectory = some (advanceResult g) ∧
    (advanceResult g).player.position = getVec g.cached_trajectories.player_positions 0 ∧
    (advanceResult g).player.velocity = getVec g.cached_trajectories.player_velocities 0 ∧
    (advanceResult g).player.rotation = g.player.rotation ∧
    (advanceResult g).player.mass = g.player.mass ∧
    (advanceResult g).big_gravity = g.big_gravity ∧
    (advanceResult g).planets.length = g.planets.length ∧
    (∀ i < g.planets.length,
      (getPlanet (advanceResult g).planets i).position =
        getVec (getL g.cached_trajectories.planet_positions i) 0 ∧
      (getPlanet (advanceResult g).planets i).velocity =
        getVec (getL g.cached_trajectories.planet_velocities i) 0 ∧
      (getPlanet (advanceResult g).planets i).mass = (getPlanet g.planets i).mass ∧
      (getPlanet (advanceResult g).planets i).radius = (getPlanet g.planets i).radius) ∧
    (advanceResult g).cached_trajectories.player_positions.length =
      g.cached_trajectories.player_positions.length - 1 ∧
    (advanceResult g).cached_trajectories.player_velocities.length =
      g.cached_trajectories.player_positions.length - 1 ∧
    (advanceResult g).cached_trajectories.player_rotations.length =
      g.cached_trajectories.player_positions.length - 1 ∧
    (advanceResult g).cached_trajectories.planet_positions.length = g.planets.length ∧
    (advanceResult g).cached_trajectories.planet_velocities.length = g.planets.length ∧
    (∀ i < g.planets.length,
      (getL (advanceResult g).cached_trajectories.planet_positions i).length =
        g.cached_trajectories.player_positions.length - 1 ∧
      (getL (advanceResult g).cached_trajectories.planet_velocities i).length =
        g.cached_trajectories.player_positions.length - 1) ∧
    (advanceResult g).cached_trajectories.is_valid = true := by
  obtain ⟨hpv, hpr, hcp, hcv, hper⟩ := hE
  have hL : 0 < g.cached_trajectories.player_positions.length := List.length_pos.mpr hne
  have hok : advanceReadsOk g := by
    refine ⟨List.ne_nil_of_length_pos (by omega), ?_⟩
    intro i hi
    refine ⟨hcp ▸ hi, hcv ▸ hi, ?_, ?_⟩
    · exact List.ne_nil_of_length_pos (by rw [(hper i hi).1]; omega)
    · exact List.ne_nil_of_length_pos (by rw [(hper i hi).2]; omega)
  have hsome : g.advance_trajectory = some (advanceResult g) := by
    unfold Game.advance_trajectory
    rw [if_neg, if_pos hok]
    rintro (h | h)
    · rw [hv] at h; cases h
    · exact hne h
  have hnle : g.cached_trajectories.planet_positions.length ≤ g.planets.length := le_of_eq hcp
  have hnle' : g.cached_trajectories.planet_velocities.length ≤ g.planets.length := le_of_eq hcv
  refine ⟨hsome, rfl, rfl, rfl, rfl, rfl, ?_, ?_, ?_, ?_, ?_, ?_, ?_, ?_, hv⟩
  · show ((List.range g.planets.length).map _).length = g.planets.length
    simp
  · intro i hi
    show (getPlanet ((List.range g.planets.length).map _) i).position = _ ∧
      (getPlanet ((List.range g.planets.length).map _) i).velocity = _ ∧
      (getPlanet ((List.range g.planets.length).map _) i).mass = _ ∧
      (getPlanet ((List.range g.planets.length).map _) i).radius = _
    rw [getPlanet_range_map _ hi]
    exact ⟨rfl, rfl, rfl, rfl⟩
  · show g.cached_trajectories.player_positions.tail.length = _
    rw [List.length_tail]
  · show g.cached_trajectories.player_velocities.tail.length = _
    rw [List.length_tail, hpv]
  · show g.cached_trajectories.player_rotations.tail.length = _
    rw [List.length_tail, hpr]
  · show (popFronts g.planets.length g.cached_trajectories.planet_positions).length = _
    rw [popFronts_eq_map_tail _ _ hnle, List.length_map]
    exact hcp
  · show (popFronts g.planets.length g.cached_trajectories.planet_velocities).length = _
    rw [popFronts_eq_map_tail _ _ hnle', List.length_map]
    exact hcv
  · intro i hi
    show (getL (popFronts g.planets.length g.cached_trajectories.planet_positions) i).length = _ ∧
      (getL (popFronts g.planets.length g.cached_trajectories.planet_velocities) i).length = _
    rw [popFronts_eq_map_tail _ _ hnle, popFronts_eq_map_tail _ _ hnle',
      getL_map_tail _ (hcp ▸ hi), getL_map_tail _ (hcv ▸ hi), List.length_tail,
      List.length_tail, (hper i hi).1, (hper i hi).2]
    exact ⟨rfl, rfl⟩

/-- A concrete well-formed one-planet game with a one-entry cache, for the
C4 witness. -/
def gOnePlanet : Game :=
  ⟨1, [⟨2, 3, ⟨5, 0⟩, ⟨0, 1⟩⟩], ⟨⟨0, 0⟩, ⟨1, 0⟩, 1, 7⟩,
    ⟨[⟨9, 9⟩], [⟨8, 8⟩], [6], [[⟨1, 2⟩]], [[⟨3, 4⟩]], true⟩⟩

/-- Witness for C4 at a concrete game. -/
theorem advance_trajectory_spec_witness :
    (gOnePlanet.cached_trajectories.is_valid = true ∧ EqLens gOnePlanet ∧
      gOnePlanet.cached_trajectories.player_positions ≠ []) ∧
    (gOnePlanet.advance_trajectory = some (advanceResult gOnePlanet) ∧
      (advanceResult gOnePlanet).player.position =
        getVec gOnePlanet.cached_trajectories.player_positions 0 ∧
      (advanceResult gOnePlanet).player.velocity =
        getVec gOnePlanet.cached_trajectories.player_velocities 0 ∧
      (advanceResult gOnePlanet).player.rotation = gOnePlanet.player.rotation) :=
  ⟨⟨rfl, by decide, by decide⟩,
   let h := advance_trajectory_spec gOnePlanet rfl (by decide) (by decide)
   ⟨h.1, h.2.1, h.2.2.1, h.2.2.2.1⟩⟩

/-! ## C10: the validity flag after construction -/

/-- The states reachable from a constructed session through the public
operations (with fixed transcendental stand-ins). -/
inductive Reaches (sq sinf cosf : ℚ → ℚ) : Game → Prop where
  | init (planets : List Planet) (player : Player) :
      Reaches sq sinf cosf (Game.new sq planets player)
  | recalc {g : Game} : Reaches sq sinf cosf g →
      Reaches sq sinf cosf (g.recalculate_trajectories sq)
  | advance {g g' : Game} : Reaches sq sinf cosf g →
      g.advance_trajectory = some g' → Reaches sq sinf cosf g'
  | extend {g g' : Game} (n : ℕ) : Reaches sq sinf cosf g →
      g.extend_trajectories sq n = some g' → Reaches sq sinf cosf g'
  | input {g : Game} (s : InputState) (dt : ℚ) : Reaches sq sinf cosf g →
      Reaches sq sinf cosf (s.apply_to_game sq sinf cosf g dt)

theorem advance_isValid {g g' : Game} (h : g.advance_trajectory = some g') :
    g'.cached_trajectories.is_valid = g.cached_trajectories.is_valid := by
  unfold Game.advance_trajectory at h
  split_ifs at h with h1 h2
  · injection h with h; subst h; rfl
  · injection h with h; subst h; rfl

theorem extend_isValid {sq : ℚ → ℚ} {g g' : Game} {n : ℕ}
    (h : g.extend_trajectories sq n = some g') :
    g'.cached_trajectories.is_valid = g.cached_trajectories.is_valid := by
  unfold Game.extend_trajectories at h
  split_ifs at h with h1 h2
  · injection h with h; subst h; rfl
  · injection h with h
    subst h
    exact (extendLoop_shape sq n (extendSeed g) g.cached_trajectories g.planets.length).2.2.2.2.2.1

theorem apply_isValid (sq sinf cosf : ℚ → ℚ) (s : InputState) (g : Game) (dt : ℚ) :
    (s.apply_to_game sq sinf cosf g dt).cached_trajectories.is_valid =
      (if s.thrust then true else g.cached_trajectories.is_valid) := by
  unfold InputState.apply_to_game
  cases hth : s.thrust with
  | true => simp only [if_true]; rfl
  | false =>
    simp only [Bool.false_eq_true, if_false]
    split_ifs <;> rfl

/-- C10: in every session created through `Game::new`, the cache validity
flag is `true` from the moment the constructor returns and is never reset by
any subsequent operation, so the invalid-cache guard of `advance_trajectory`
can never fire after construction. -/
theorem reachable_cache_always_valid (sq sinf cosf : ℚ → ℚ) (g : Game)
    (h : Reaches sq sinf cosf g) : g.cached_trajectories.is_valid = true := by
  induction h with
  | init planets player => rfl
  | recalc _ _ => rfl
  | advance _ hs ih => rw [advance_isValid hs]; exact ih
  | extend n _ hs ih => rw [extend_isValid hs]; exact ih
  | input s dt _ ih =>
    rw [apply_isValid]
    cases s.thrust
    · simpa using ih
    · simp

/-- Witness for C10 at a concrete freshly constructed session. -/
theorem reachable_cache_always_valid_witness :
    Reaches sqEx sqEx sqEx gEx ∧ gEx.cached_trajectories.is_valid = true :=
  ⟨Reaches.init [] pEx,
   reachable_cache_always_valid sqEx sqEx sqEx gEx (Reaches.init [] pEx)⟩

/-! ## C6 and C7: the input bridge -/

/-- The player rotation after the rotation step of one `apply_to_game` call
(`rotation ± 3·dt` per held key, left first). -/
def rotAfter (s : InputState) (g : Game) (dt : ℚ) : ℚ :=
  if s.rotate_right then
    (if s.rotate_left then g.player.rotation - 3 * dt else g.player.rotation) + 3 * dt
  else if s.rotate_left then g.player.rotation - 3 * dt else g.player.rotation

/-- The present state after the rotation update and the thrust velocity kick
of one `apply_to_game` call (before the recompute), mirroring the source
formulas. -/
def thrustGame (sinf cosf : ℚ → ℚ) (s : InputState) (g : Game) (dt : ℚ) : Game :=
  { g with player := { g.player with
      rotation := rotAfter s g dt,
      velocity := ⟨g.player.velocity.x + sinf (rotAfter s g dt) * 25 / g.player.mass * dt,
                   g.player.velocity.y + -(cosf (rotAfter s g dt)) * 25 / g.player.mass * dt⟩ } }

/-- C6: while thrust is held, one `apply_to_game(dt)` call changes the
present velocity by exactly `(F/mass)·dt` along `(sin θ, -cos θ)` for the
current rotation `θ` (`rotAfter s g dt`, which is `g.player.rotation`
whenever no rotation key is held), leaves the position unchanged, and
unconditionally performs a full recompute: the resulting cache is the
freshly computed forward window of the post-thrust present state, with the
validity flag `true`. -/
theorem apply_thrust_spec (sq sinf cosf : ℚ → ℚ) (s : InputState) (g : Game) (dt : ℚ)
    (ht : s.thrust = true) :
    s.apply_to_game sq sinf cosf g dt =
      (thrustGame sinf cosf s g dt).recalculate_trajectories sq ∧
    (s.apply_to_game sq sinf cosf g dt).player.velocity =
      g.player.velocity.add
        ((Vector2.mk (sinf (rotAfter s g dt)) (-(cosf (rotAfter s g dt)))).scale
          (25 / g.player.mass * dt)) ∧
    (s.apply_to_game sq sinf cosf g dt).player.position = g.player.position ∧
    (s.apply_to_game sq sinf cosf g dt).player.rotation = rotAfter s g dt ∧
    (s.apply_to_game sq sinf cosf g dt).cached_trajectories.is_valid = true ∧
    (s.apply_to_game sq sinf cosf g dt).cached_trajectories =
      windowCache sq (thrustGame sinf cosf s g dt) 0 TRAJECTORY_NUM_STEPS := by
  have happ : s.apply_to_game sq sinf cosf g dt =
      (thrustGame sinf cosf s g dt).recalculate_trajectories sq := by
    unfold InputState.apply_to_game thrustGame rotAfter
    rw [ht]
    simp only [if_true]
    cases hl : s.rotate_left <;> cases hr : s.rotate_right <;> simp [hl, hr]
  have hplay := (recalcWith_isWindow sq TRAJECTORY_NUM_STEPS (thrustGame sinf cosf s g dt)).1
  refine ⟨happ, ?_, ?_, ?_, ?_, ?_⟩
  · rw [happ]
    show (Game.recalcWith sq TRAJECTORY_NUM_STEPS _).player.velocity = _
    rw [hplay]
    show Vector2.mk _ _ = _
    refine Vector2.ext ?_ ?_ <;> simp [Vector2.add, Vector2.scale] <;> ring
  · rw [happ]
    show (Game.recalcWith sq TRAJECTORY_NUM_STEPS _).player.position = _
    rw [hplay]
    rfl
  · rw [happ]
    show (Game.recalcWith sq TRAJECTORY_NUM_STEPS _).player.rotation = _
    rw [hplay]
    rfl
  · rw [happ]
    rfl
  · rw [happ]
    exact ((recalcWith_isWindow sq TRAJECTORY_NUM_STEPS
      (thrustGame sinf cosf s g dt)).2.2.2).2.2.2.2

/-- Witness for C6 at a concrete input state. -/
theorem apply_thrust_spec_witness :
    (InputState.mk false false true).thrust = true ∧
    ((InputState.mk false false true).apply_to_game sqEx sqEx sqEx gEmptyCache 2).player.position =
      gEmptyCache.player.position :=
  ⟨rfl, (apply_thrust_spec sqEx sqEx sqEx (InputState.mk false false true)
    gEmptyCache 2 rfl).2.2.1⟩

/-- One rotation-only call in canonical form: only the rotation changes, by
`(+3·dt if right) − (+3·dt if left)`. -/
theorem apply_norot_eq (sq sinf cosf : ℚ → ℚ) (s : InputState) (g : Game) (dt : ℚ)
    (ht : s.thrust = false) :
    s.apply_to_game sq sinf cosf g dt =
      { g with player := { g.player with rotation := g.player.rotation +
          ((if s.rotate_right then 3 * dt else 0) - (if s.rotate_left then 3 * dt else 0)) } } := by
  unfold InputState.apply_to_game
  rw [ht]
  simp only [Bool.false_eq_true, if_false]
  cases hl : s.rotate_left <;> cases hr : s.rotate_right <;>
    · simp only [hl, hr, if_true, if_false, Bool.false_eq_true]
      refine Game.ext rfl rfl (Player.ext rfl rfl rfl ?_) rfl
      simp
      try ring

/-- C7: with thrust not held, `apply_to_game` changes only the present
rotation (by `±3·dt` per held rotation key); iterated any number of times it
never changes the cache (hence neither the validity flag nor any cached
entry), the present positions and velocities, the planets, or the
gravitational constant, and the rotation accumulates linearly. -/
theorem apply_rotation_only (sq sinf cosf : ℚ → ℚ) (s : InputState) (g : Game) (dt : ℚ)
    (ht : s.thrust = false) :
    s.apply_to_game sq sinf cosf g dt =
      { g with player := { g.player with rotation := g.player.rotation +
          ((if s.rotate_right then 3 * dt else 0) - (if s.rotate_left then 3 * dt else 0)) } } ∧
    ∀ m : ℕ,
      ((fun g' => s.apply_to_game sq sinf cosf g' dt)^[m] g).cached_trajectories =
        g.cached_trajectories ∧
      ((fun g' => s.apply_to_game sq sinf cosf g' dt)^[m] g).player.position =
        g.player.position ∧
      ((fun g' => s.apply_to_game sq sinf cosf g' dt)^[m] g).player.velocity =
        g.player.velocity ∧
      ((fun g' => s.apply_to_game sq sinf cosf g' dt)^[m] g).planets = g.planets ∧
      ((fun g' => s.apply_to_game sq sinf cosf g' dt)^[m] g).big_gravity = g.big_gravity ∧
      ((fun g' => s.apply_to_game sq sinf cosf g' dt)^[m] g).player.mass = g.player.mass ∧
      ((fun g' => s.apply_to_game sq sinf cosf g' dt)^[m] g).player.rotation =
        g.player.rotation + (m : ℚ) *
          ((if s.rotate_right then 3 * dt else 0) - (if s.rotate_left then 3 * dt else 0)) := by
  refine ⟨apply_norot_eq sq sinf cosf s g dt ht, ?_⟩
  intro m
  induction m with
  | zero =>
    refine ⟨rfl, rfl, rfl, rfl, rfl, rfl, ?_⟩
    simp
  | succ k ih =>
    obtain ⟨ihc, ihp, ihv, ihpl, ihG, ihm, ihr⟩ := ih
    rw [Function.iterate_succ_apply',
      apply_norot_eq sq sinf cosf s ((fun g' => s.apply_to_game sq sinf cosf g' dt)^[k] g) dt ht]
    refine ⟨ihc, ihp, ihv, ihpl, ihG, ihm, ?_⟩
    show ((fun g' => s.apply_to_game sq sinf cosf g' dt)^[k] g).player.rotation + _ = _
    rw [ihr]
    push_cast
    ring

/-- Witness for C7 at a concrete input state. -/
theorem apply_rotation_only_witness :
    (InputState.mk true false false).thrust = false ∧
    ((InputState.mk true false false).apply_to_game sqEx sqEx sqEx gEmptyCache
      2).cached_trajectories = gEmptyCache.cached_trajectories := by
  refine ⟨rfl, ?_⟩
  have h := (apply_rotation_only sqEx sqEx sqEx (InputState.mk true false false)
    gEmptyCache 2 rfl).2 1
  simpa using h.1

/-! ## C5: the integrator -/

theorem vadd_zero (v : Vector2) : v.add Vector2.zero = v := by
  refine Vector2.ext ?_ ?_ <;> simp [Vector2.add, Vector2.zero]

theorem vzero_add (v : Vector2) : Vector2.zero.add v = v := by
  refine Vector2.ext ?_ ?_ <;> simp [Vector2.add, Vector2.zero]

theorem vadd_assoc (a b c : Vector2) : (a.add b).add c = a.add (b.add c) := by
  refine Vector2.ext ?_ ?_ <;> simp [Vector2.add] <;> ring

/-- Sum of a list of vectors. -/
def vsum (l : List Vector2) : Vector2 := l.foldr Vector2.add Vector2.zero

theorem vsum_nil : vsum [] = Vector2.zero := rfl

theorem vsum_cons (a : Vector2) (l : List Vector2) : vsum (a :: l) = a.add (vsum l) := rfl

theorem getVec_set_self (l : List Vector2) (i : ℕ) (v : Vector2) (h : i < l.length) :
    getVec (l.set i v) i = v := by
  rw [getVec, List.getD_eq_getElem?_getD, List.getElem?_set_self (by simpa using h)]
  rfl

theorem getVec_set_ne (l : List Vector2) (i j : ℕ) (v : Vector2) (h : i ≠ j) :
    getVec (l.set i v) j = getVec l j := by
  rw [getVec, getVec, List.getD_eq_getElem?_getD, List.getD_eq_getElem?_getD,
    List.getElem?_set_ne h]

theorem getVec_replicate (n k : ℕ) (h : k < n) :
    getVec (List.replicate n Vector2.zero) k = Vector2.zero := by
  rw [getVec, List.getD_eq_getElem?_getD, List.getElem?_replicate]
  simp [h]

/-- The contribution the pair loop iteration `(i, j)` of `Game::update` adds
to `planet_accelerations[k]` (the source's `accel_i` for `k = i`, `accel_j`
for `k = j`, nothing otherwise, nothing for zero-distance pairs). -/
def pairTerm (bigG : ℚ) (sq : ℚ → ℚ) (ps : List Planet) (k : ℕ) (ij : ℕ × ℕ) : Vector2 :=
  let pI := getPlanet ps ij.1
  let pJ := getPlanet ps ij.2
  let diff := pJ.position.subtract pI.position
  let dist := diff.magnitude sq
  if 0 < dist then
    if k = ij.1 then (diff.scale (1 / dist)).scale (bigG / (dist * dist) * pJ.mass)
    else if k = ij.2 then (diff.scale (1 / dist)).scale (-(bigG / (dist * dist)) * pI.mass)
    else Vector2.zero
  else Vector2.zero

theorem pairBody_length (bigG : ℚ) (sq : ℚ → ℚ) (ps : List Planet)
    (acc : List Vector2) (ij : ℕ × ℕ) : (pairBody bigG sq ps acc ij).length = acc.length := by
  simp only [pairBody]
  split_ifs <;> simp

theorem getVec_pairBody (bigG : ℚ) (sq : ℚ → ℚ) (ps : List Planet)
    (acc : List Vector2) (i j k : ℕ) (hij : i ≠ j) (hi : i < acc.length)
    (hj : j < acc.length) :
    getVec (pairBody bigG sq ps acc (i, j)) k =
      (getVec acc k).add (pairTerm bigG sq ps k (i, j)) := by
  simp only [pairBody, pairTerm]
  by_cases hki : k = i
  · rw [if_pos hki]
    split_ifs with hd
    · subst hki
      rw [getVec_set_ne _ _ _ _ (Ne.symm hij), getVec_set_self _ _ _ hi]
    · rw [vadd_zero]
  · by_cases hkj : k = j
    · rw [if_neg hki, if_pos hkj]
      split_ifs with hd
      · subst hkj
        rw [getVec_set_self _ _ _ (by simpa using hj), getVec_set_ne _ _ _ _ hij]
      · rw [vadd_zero]
    · rw [if_neg hki, if_neg hkj]
      split_ifs with hd
      · rw [getVec_set_ne _ _ _ _ (fun h => hkj h.symm),
          getVec_set_ne _ _ _ _ (fun h => hki h.symm), vadd_zero]
      · rw [vadd_zero]

theorem getVec_pairFold (bigG : ℚ) (sq : ℚ → ℚ) (ps : List Planet) :
    ∀ (l : List (ℕ × ℕ)) (acc : List Vector2),
      (∀ ij ∈ l, ij.1 < acc.length ∧ ij.2 < acc.length ∧ ij.1 ≠ ij.2) →
      (l.foldl (pairBody bigG sq ps) acc).length = acc.length ∧
      ∀ k, getVec (l.foldl (pairBody bigG sq ps) acc) k =
        (getVec acc k).add (vsum (l.map (pairTerm bigG sq ps k))) := by
  intro l
  induction l with
  | nil =>
    intro acc _
    refine ⟨rfl, fun k => ?_⟩
    rw [List.foldl_nil, List.map_nil, vsum_nil, vadd_zero]
  | cons ij l ih =>
    intro acc hmem
    obtain ⟨hi, hj, hij⟩ := hmem ij (List.mem_cons_self ij l)
    have hstep : ∀ p, (pairBody bigG sq ps acc p).length = acc.length :=
      fun p => pairBody_length bigG sq ps acc p
    obtain ⟨ihlen, ihget⟩ := ih (pairBody bigG sq ps acc ij) (by
      intro p hp
      rw [hstep ij]
      exact hmem p (List.mem_cons_of_mem ij hp))
    refine ⟨by rw [List.foldl_cons, ihlen, hstep], fun k => ?_⟩
    rw [List.foldl_cons, ihget k, List.map_cons, vsum_cons, ← vadd_assoc]
    refine congrArg₂ Vector2.add ?_ rfl
    obtain ⟨i, j⟩ := ij
    exact getVec_pairBody bigG sq ps acc i j k hij hi hj

/-- The acceleration the player-coupling loop iteration `i` of `Game::update`
adds to the player's acceleration (the source's `player_accel`). -/
def playerTermFromPlanet (bigG : ℚ) (sq : ℚ → ℚ) (pl : Player) (ps : List Planet)
    (i : ℕ) : Vector2 :=
  let planet := getPlanet ps i
  let diff := planet.position.subtract pl.position
  let dist := diff.magnitude sq
  if 0 < dist then
    (diff.scale (1 / dist)).scale (bigG * planet.mass * pl.mass / (dist * dist) / pl.mass)
  else Vector2.zero

/-- The reaction acceleration the player-coupling loop iteration `i` of
`Game::update` adds to `planet_accelerations[i]` (the source's
`planet_accel`, Newton's third law). -/
def playerTermOnPlanet (bigG : ℚ) (sq : ℚ → ℚ) (pl : Player) (ps : List Planet)
    (i : ℕ) : Vector2 :=
  let planet := getPlanet ps i
  let diff := planet.position.subtract pl.position
  let dist := diff.magnitude sq
  if 0 < dist then
    (diff.scale (1 / dist)).scale (-(bigG * planet.mass * pl.mass / (dist * dist)) / planet.mass)
  else Vector2.zero

theorem playerBody_step (bigG : ℚ) (sq : ℚ → ℚ) (pl : Player) (ps : List Planet)
    (st : Vector2 × List Vector2) (i : ℕ) (hi : i < st.2.length) :
    (playerBody bigG sq pl ps st i).1 =
      st.1.add (playerTermFromPlanet bigG sq pl ps i) ∧
    (playerBody bigG sq pl ps st i).2.length = st.2.length ∧
    ∀ k, getVec (playerBody bigG sq pl ps st i).2 k =
      (getVec st.2 k).add
        (if k = i then playerTermOnPlanet bigG sq pl ps k else Vector2.zero) := by
  refine ⟨?_, ?_, ?_⟩
  · simp only [playerBody, playerTermFromPlanet]
    split_ifs with hd
    · rfl
    · exact (vadd_zero st.1).symm
  · simp only [playerBody]
    split_ifs <;> simp
  · intro k
    by_cases hk : k = i
    · subst hk
      rw [if_pos rfl]
      simp only [playerBody, playerTermOnPlanet]
      split_ifs with hd
      · exact getVec_set_self _ _ _ hi
      · exact (vadd_zero _).symm
    · rw [if_neg hk, vadd_zero]
      simp only [playerBody]
      split_ifs with hd
      · exact getVec_set_ne _ _ _ _ (fun h => hk h.symm)
      · rfl

theorem playerFold_spec (bigG : ℚ) (sq : ℚ → ℚ) (pl : Player) (ps : List Planet) :
    ∀ (m s : ℕ) (st : Vector2 × List Vector2), s + m ≤ st.2.length →
      ((List.range' s m).foldl (playerBody bigG sq pl ps) st).1 =
        st.1.add (vsum ((List.range' s m).map (playerTermFromPlanet bigG sq pl ps))) ∧
      ((List.range' s m).foldl (playerBody bigG sq pl ps) st).2.length = st.2.length ∧
      ∀ k, getVec ((List.range' s m).foldl (playerBody bigG sq pl ps) st).2 k =
        (getVec st.2 k).add
          (if s ≤ k ∧ k < s + m then playerTermOnPlanet bigG sq pl ps k else Vector2.zero) := by
  intro m
  induction m with
  | zero =>
    intro s st _
    refine ⟨by rw [List.range'_zero, List.foldl_nil, List.map_nil, vsum_nil, vadd_zero],
      rfl, fun k => ?_⟩
    rw [List.range'_zero, List.foldl_nil, if_neg (by omega), vadd_zero]
  | succ m ih =>
    intro s st hlen
    have hi : s < st.2.length := by omega
    obtain ⟨hs1, hs2, hs3⟩ := playerBody_step bigG sq pl ps st s hi
    obtain ⟨ih1, ih2, ih3⟩ := ih (s + 1) (playerBody bigG sq pl ps st s)
      (by rw [hs2]; omega)
    rw [List.range'_succ]
    refine ⟨?_, by rw [List.foldl_cons, ih2, hs2], fun k => ?_⟩
    · rw [List.foldl_cons, ih1, hs1, List.map_cons, vsum_cons, vadd_assoc]
    · rw [List.foldl_cons, ih3 k, hs3 k]
      by_cases hk : k = s
      · subst hk
        rw [if_pos rfl, if_neg (by omega), if_pos (by omega), vadd_zero]
      · rw [if_neg hk, vadd_zero]
        by_cases hk2 : s + 1 ≤ k ∧ k < s + 1 + m
        · rw [if_pos hk2, if_pos (by omega)]
        · rw [if_neg hk2, if_neg (by omega)]

theorem allPairs_mem {n : ℕ} {ij : ℕ × ℕ} (h : ij ∈ allPairs n) :
    ij.1 < n ∧ ij.2 < n ∧ ij.1 < ij.2 := by
  unfold allPairs at h
  rw [List.mem_flatMap] at h
  obtain ⟨i, hi, hmem⟩ := h
  rw [List.mem_map] at hmem
  obtain ⟨j, hj, rfl⟩ := hmem
  rw [List.mem_range] at hi
  rw [List.mem_range'_1] at hj
  exact ⟨hi, by omega, by omega⟩

/-- The planet acceleration `Game::update` computes for planet `k`, in
specification form: the sum of the pairwise Newtonian terms over all pairs
plus the reaction term from the player coupling. -/
def planetAccelSpec (bigG : ℚ) (sq : ℚ → ℚ) (pl : Player) (ps : List Planet)
    (k : ℕ) : Vector2 :=
  (vsum ((allPairs ps.length).map (pairTerm bigG sq ps k))).add
    (playerTermOnPlanet bigG sq pl ps k)

/-- The player acceleration `Game::update` computes, in specification form:
the sum over all planets of the gravitational pull terms. -/
def playerAccelSpec (bigG : ℚ) (sq : ℚ → ℚ) (pl : Player) (ps : List Planet) : Vector2 :=
  vsum ((List.range ps.length).map (playerTermFromPlanet bigG sq pl ps))

theorem accelPhase_spec (bigG : ℚ) (sq : ℚ → ℚ) (pl : Player) (ps : List Planet) :
    (accelPhase bigG sq pl ps).1 = playerAccelSpec bigG sq pl ps ∧
    ∀ k < ps.length,
      getVec (accelPhase bigG sq pl ps).2 k = planetAccelSpec bigG sq pl ps k := by
  have hpair := getVec_pairFold bigG sq ps (allPairs ps.length)
    (List.replicate ps.length Vector2.zero) (by
      intro ij hij
      obtain ⟨h1, h2, h3⟩ := allPairs_mem hij
      exact ⟨by simpa using h1, by simpa using h2, by omega⟩)
  have hplayer := playerFold_spec bigG sq pl ps ps.length 0
    (Vector2.zero, planetPairAccels bigG sq ps) (by
      show 0 + ps.length ≤ (planetPairAccels bigG sq ps).length
      unfold planetPairAccels
      rw [hpair.1, List.length_replicate]
      omega)
  constructor
  · show ((List.range ps.length).foldl (playerBody bigG sq pl ps) _).1 = _
    unfold playerAccelSpec
    rw [List.range_eq_range', hplayer.1, vzero_add]
  · intro k hk
    show getVec ((List.range ps.length).foldl (playerBody bigG sq pl ps) _).2 k = _
    unfold planetAccelSpec
    rw [List.range_eq_range', hplayer.2.2 k, if_pos (by omega : 0 ≤ k ∧ k < 0 + ps.length)]
    show (getVec ((allPairs ps.length).foldl (pairBody bigG sq ps) _) k).add _ = _
    rw [hpair.2 k, getVec_replicate _ _ hk, vzero_add]

theorem dot_scale_self (v : Vector2) (c d : ℚ) (hd : d ≠ 0)
    (h : d * d = v.x * v.x + v.y * v.y) :
    Vector2.dot ((v.scale (1 / d)).scale c) ((v.scale (1 / d)).scale c) = c ^ 2 := by
  simp only [Vector2.dot, Vector2.scale]
  field_simp
  linear_combination c ^ 2 * h.symm

theorem pairTerm_zero_of_dist (bigG : ℚ) (sq : ℚ → ℚ) (ps : List Planet) (i j k : ℕ)
    (h : ¬ 0 < ((getPlanet ps j).position.subtract (getPlanet ps i).position).magnitude sq) :
    pairTerm bigG sq ps k (i, j) = Vector2.zero := by
  simp only [pairTerm]
  rw [if_neg h]

theorem pairTerm_newton (bigG : ℚ) (sq : ℚ → ℚ) (ps : List Planet) (i j : ℕ) (hij : i ≠ j)
    (hd : 0 < ((getPlanet ps j).position.subtract (getPlanet ps i).position).magnitude sq) :
    ((pairTerm bigG sq ps i (i, j)).scale (getPlanet ps i).mass).add
      ((pairTerm bigG sq ps j (i, j)).scale (getPlanet ps j).mass) = Vector2.zero := by
  have hji : (j = i) = False := eq_false (fun h => hij h.symm)
  simp only [pairTerm, hd, hji, eq_self_iff_true, if_true, if_false]
  refine Vector2.ext ?_ ?_ <;>
    · simp [Vector2.add, Vector2.scale, Vector2.zero]
      ring

theorem pairTerm_mag (bigG : ℚ) (sq : ℚ → ℚ) (ps : List Planet) (i j : ℕ) (hij : i ≠ j)
    (hd : 0 < ((getPlanet ps j).position.subtract (getPlanet ps i).position).magnitude sq)
    (hsq : ((getPlanet ps j).position.subtract (getPlanet ps i).position).magnitude sq *
        ((getPlanet ps j).position.subtract (getPlanet ps i).position).magnitude sq =
      ((getPlanet ps j).position.subtract (getPlanet ps i).position).x *
        ((getPlanet ps j).position.subtract (getPlanet ps i).position).x +
      ((getPlanet ps j).position.subtract (getPlanet ps i).position).y *
        ((getPlanet ps j).position.subtract (getPlanet ps i).position).y) :
    Vector2.dot (pairTerm bigG sq ps i (i, j)) (pairTerm bigG sq ps i (i, j)) =
      (bigG * (getPlanet ps j).mass /
        (((getPlanet ps j).position.subtract (getPlanet ps i).position).magnitude sq *
          ((getPlanet ps j).position.subtract (getPlanet ps i).position).magnitude sq)) ^ 2 ∧
    Vector2.dot (pairTerm bigG sq ps j (i, j)) (pairTerm bigG sq ps j (i, j)) =
      (bigG * (getPlanet ps i).mass /
        (((getPlanet ps j).position.subtract (getPlanet ps i).position).magnitude sq *
          ((getPlanet ps j).position.subtract (getPlanet ps i).position).magnitude sq)) ^ 2 := by
  have hji : (j = i) = False := eq_false (fun h => hij h.symm)
  simp only [pairTerm, hd, hji, eq_self_iff_true, if_true, if_false]
  constructor
  · rw [dot_scale_self _ _ _ (ne_of_gt hd) hsq]
    ring
  · rw [dot_scale_self _ _ _ (ne_of_gt hd) hsq]
    ring

theorem playerTerms_zero_of_dist (bigG : ℚ) (sq : ℚ → ℚ) (pl : Player) (ps : List Planet)
    (i : ℕ) (h : ¬ 0 < ((getPlanet ps i).position.subtract pl.position).magnitude sq) :
    playerTermFromPlanet bigG sq pl ps i = Vector2.zero ∧
    playerTermOnPlanet bigG sq pl ps i = Vector2.zero := by
  simp only [playerTermFromPlanet, playerTermOnPlanet]
  rw [if_neg h, if_neg h]
  exact ⟨rfl, rfl⟩

theorem playerTerms_newton (bigG : ℚ) (sq : ℚ → ℚ) (pl : Player) (ps : List Planet)
    (i : ℕ) (hd : 0 < ((getPlanet ps i).position.subtract pl.position).magnitude sq)
    (hmp : pl.mass ≠ 0) (hmi : (getPlanet ps i).mass ≠ 0) :
    ((playerTermFromPlanet bigG sq pl ps i).scale pl.mass).add
      ((playerTermOnPlanet bigG sq pl ps i).scale (getPlanet ps i).mass) = Vector2.zero := by
  simp only [playerTermFromPlanet, playerTermOnPlanet, hd, if_true]
  refine Vector2.ext ?_ ?_ <;>
    · simp [Vector2.add, Vector2.scale, Vector2.zero]
      field_simp
      ring

theorem playerTerms_mag (bigG : ℚ) (sq : ℚ → ℚ) (pl : Player) (ps : List Planet)
    (i : ℕ) (hd : 0 < ((getPlanet ps i).position.subtract pl.position).magnitude sq)
    (hsq : ((getPlanet ps i).position.subtract pl.position).magnitude sq *
        ((getPlanet ps i).position.subtract pl.position).magnitude sq =
      ((getPlanet ps i).position.subtract pl.position).x *
        ((getPlanet ps i).position.subtract pl.position).x +
      ((getPlanet ps i).position.subtract pl.position).y *
        ((getPlanet ps i).position.subtract pl.position).y) :
    (pl.mass ≠ 0 →
      Vector2.dot (playerTermFromPlanet bigG sq pl ps i) (playerTermFromPlanet bigG sq pl ps i) =
        (bigG * (getPlanet ps i).mass /
          (((getPlanet ps i).position.subtract pl.position).magnitude sq *
            ((getPlanet ps i).position.subtract pl.position).magnitude sq)) ^ 2) ∧
    ((getPlanet ps i).mass ≠ 0 →
      Vector2.dot (playerTermOnPlanet bigG sq pl ps i) (playerTermOnPlanet bigG sq pl ps i) =
        (bigG * pl.mass /
          (((getPlanet ps i).position.subtract pl.position).magnitude sq *
            ((getPlanet ps i).position.subtract pl.position).magnitude sq)) ^ 2) := by
  simp only [playerTermFromPlanet, playerTermOnPlanet, hd, if_true]
  constructor
  · intro hmp
    rw [dot_scale_self _ _ _ (ne_of_gt hd) hsq]
    field_simp
    ring
  · intro hmi
    rw [dot_scale_self _ _ _ (ne_of_gt hd) hsq]
    field_simp
    ring

/-- C5: `Game::update` is one sub-step of semi-implicit Euler.  All
accelerations are computed from the pre-update positions: planet `i`
receives the sum over the pair loop of `pairTerm` plus the player reaction
term, the player receives the sum of `playerTermFromPlanet`; then for every
planet and the player, velocity is updated before position (`v += a·dt`,
then `x += v·dt`) with the same `dt`, and the rotation, masses, radii,
gravitational constant and cache are untouched.  Each pair contribution at
distance `r > 0` has squared magnitude `(G·m_other/r²)²` (given that `sq`
really is a square root on the radicand involved), the two members' terms
are equal and opposite as forces (mass-weighted sum is zero), and
zero-distance pairs contribute nothing. -/
theorem update_semi_implicit_euler (sq : ℚ → ℚ) (g : Game) (dt : ℚ) :
    (Game.update sq g dt).planets.length = g.planets.length ∧
    (∀ i < g.planets.length,
      (getPlanet (Game.update sq g dt).planets i).velocity =
        (getPlanet g.planets i).velocity.add
          ((planetAccelSpec g.big_gravity sq g.player g.planets i).scale dt) ∧
      (getPlanet (Game.update sq g dt).planets i).position =
        (getPlanet g.planets i).position.add
          (((getPlanet g.planets i).velocity.add
            ((planetAccelSpec g.big_gravity sq g.player g.planets i).scale dt)).scale dt) ∧
      (getPlanet (Game.update sq g dt).planets i).mass = (getPlanet g.planets i).mass ∧
      (getPlanet (Game.update sq g dt).planets i).radius = (getPlanet g.planets i).radius) ∧
    (Game.update sq g dt).player.velocity =
      g.player.velocity.add
        ((playerAccelSpec g.big_gravity sq g.player g.planets).scale dt) ∧
    (Game.update sq g dt).player.position =
      g.player.position.add
        ((g.player.velocity.add
          ((playerAccelSpec g.big_gravity sq g.player g.planets).scale dt)).scale dt) ∧
    (Game.update sq g dt).player.rotation = g.player.rotation ∧
    (Game.update sq g dt).player.mass = g.player.mass ∧
    (Game.update sq g dt).big_gravity = g.big_gravity ∧
    (Game.update sq g dt).cached_trajectories = g.cached_trajectories ∧
    (∀ i j k : ℕ,
      ¬ 0 < ((getPlanet g.planets j).position.subtract
          (getPlanet g.planets i).position).magnitude sq →
      pairTerm g.big_gravity sq g.planets k (i, j) = Vector2.zero) ∧
    (∀ i j : ℕ, i ≠ j →
      0 < ((getPlanet g.planets j).position.subtract
          (getPlanet g.planets i).position).magnitude sq →
      ((pairTerm g.big_gravity sq g.planets i (i, j)).scale (getPlanet g.planets i).mass).add
        ((pairTerm g.big_gravity sq g.planets j (i, j)).scale (getPlanet g.planets j).mass) =
        Vector2.zero ∧
      (((getPlanet g.planets j).position.subtract (getPlanet g.planets i).position).magnitude sq *
          ((getPlanet g.planets j).position.subtract
            (getPlanet g.planets i).position).magnitude sq =
        ((getPlanet g.planets j).position.subtract (getPlanet g.planets i).position).x *
          ((getPlanet g.planets j).position.subtract (getPlanet g.planets i).position).x +
        ((getPlanet g.planets j).position.subtract (getPlanet g.planets i).position).y *
          ((getPlanet g.planets j).position.subtract (getPlanet g.planets i).position).y →
        Vector2.dot (pairTerm g.big_gravity sq g.planets i (i, j))
            (pairTerm g.big_gravity sq g.planets i (i, j)) =
          (g.big_gravity * (getPlanet g.planets j).mass /
            (((getPlanet g.planets j).position.subtract
                (getPlanet g.planets i).position).magnitude sq *
              ((getPlanet g.planets j).position.subtract
                (getPlanet g.planets i).position).magnitude sq)) ^ 2 ∧
        Vector2.dot (pairTerm g.big_gravity sq g.planets j (i, j))
            (pairTerm g.big_gravity sq g.planets j (i, j)) =
          (g.big_gravity * (getPlanet g.planets i).mass /
            (((getPlanet g.planets j).position.subtract
                (getPlanet g.planets i).position).magnitude sq *
              ((getPlanet g.planets j).position.subtract
                (getPlanet g.planets i).position).magnitude sq)) ^ 2)) ∧
    (∀ i : ℕ,
      (¬ 0 < ((getPlanet g.planets i).position.subtract g.player.position).magnitude sq →
        playerTermFromPlanet g.big_gravity sq g.player g.planets i = Vector2.zero ∧
        playerTermOnPlanet g.big_gravity sq g.player g.planets i = Vector2.zero) ∧
      (0 < ((getPlanet g.planets i).position.subtract g.player.position).magnitude sq →
        (g.player.mass ≠ 0 → (getPlanet g.planets i).mass ≠ 0 →
          ((playerTermFromPlanet g.big_gravity sq g.player g.planets i).scale
            g.player.mass).add
            ((playerTermOnPlanet g.big_gravity sq g.player g.planets i).scale
              (getPlanet g.planets i).mass) = Vector2.zero) ∧
        (((getPlanet g.planets i).position.subtract g.player.position).magnitude sq *
            ((getPlanet g.planets i).position.subtract g.player.position).magnitude sq =
          ((getPlanet g.planets i).position.subtract g.player.position).x *
            ((getPlanet g.planets i).position.subtract g.player.position).x +
          ((getPlanet g.planets i).position.subtract g.player.position).y *
            ((getPlanet g.planets i).position.subtract g.player.position).y →
          (g.player.mass ≠ 0 →
            Vector2.dot (playerTermFromPlanet g.big_gravity sq g.player g.planets i)
                (playerTermFromPlanet g.big_gravity sq g.player g.planets i) =
              (g.big_gravity * (getPlanet g.planets i).mass /
                (((getPlanet g.planets i).position.subtract g.player.position).magnitude sq *
                  ((getPlanet g.planets i).position.subtract
                    g.player.position).magnitude sq)) ^ 2) ∧
          ((getPlanet g.planets i).mass ≠ 0 →
            Vector2.dot (playerTermOnPlanet g.big_gravity sq g.player g.planets i)
                (playerTermOnPlanet g.big_gravity sq g.player g.planets i) =
              (g.big_gravity * g.player.mass /
                (((getPlanet g.planets i).position.subtract g.player.position).magnitude sq *
                  ((getPlanet g.planets i).position.subtract
                    g.player.position).magnitude sq)) ^ 2)))) := by
  obtain ⟨hfst, hsnd⟩ := accelPhase_spec g.big_gravity sq g.player g.planets
  obtain ⟨F, hF, hFvel, hFpos, hFmass, hFrad⟩ :
      ∃ F, (Game.update sq g dt).planets = (List.range g.planets.length).map F ∧
        (∀ i, (F i).velocity = (getPlanet g.planets i).velocity.add
          ((getVec (accelPhase g.big_gravity sq g.player g.planets).2 i).scale dt)) ∧
        (∀ i, (F i).position = (getPlanet g.planets i).position.add
          (((getPlanet g.planets i).velocity.add
            ((getVec (accelPhase g.big_gravity sq g.player g.planets).2 i).scale dt)).scale dt)) ∧
        (∀ i, (F i).mass = (getPlanet g.planets i).mass) ∧
        (∀ i, (F i).radius = (getPlanet g.planets i).radius) :=
    ⟨_, rfl, fun _ => rfl, fun _ => rfl, fun _ => rfl, fun _ => rfl⟩
  refine ⟨by rw [hF]; simp, ?_, ?_, ?_, rfl, rfl, rfl, rfl, ?_, ?_, ?_⟩
  · intro i hi
    rw [hF, getPlanet_range_map _ hi, hFvel i, hFpos i, hFmass i, hFrad i, hsnd i hi]
    exact ⟨rfl, rfl, rfl, rfl⟩
  · show g.player.velocity.add (((accelPhase g.big_gravity sq g.player g.planets).1).scale dt) = _
    rw [hfst]
  · show g.player.position.add ((g.player.velocity.add
      (((accelPhase g.big_gravity sq g.player g.planets).1).scale dt)).scale dt) = _
    rw [hfst]
  · intro i j k h
    exact pairTerm_zero_of_dist g.big_gravity sq g.planets i j k h
  · intro i j hij hd
    refine ⟨pairTerm_newton g.big_gravity sq g.planets i j hij hd, ?_⟩
    intro hsq
    exact pairTerm_mag g.big_gravity sq g.planets i j hij hd hsq
  · intro i
    refine ⟨fun h => playerTerms_zero_of_dist g.big_gravity sq g.player g.planets i h, ?_⟩
    intro hd
    refine ⟨fun hmp hmi => playerTerms_newton g.big_gravity sq g.player g.planets i hd hmp hmi, ?_⟩
    intro hsq
    exact playerTerms_mag g.big_gravity sq g.player g.planets i hd hsq

/-- A concrete two-planet game with coincident planets (zero-distance pair),
for the C5 witness. -/
def gTwo : Game :=
  ⟨1, [⟨1, 2, ⟨1, 1⟩, ⟨0, 0⟩⟩, ⟨1, 3, ⟨1, 1⟩, ⟨0, 0⟩⟩], ⟨⟨9, 0⟩, ⟨0, 0⟩, 1, 0⟩,
    ⟨[], [], [], [], [], true⟩⟩

/-- Witness for C5 at a concrete game: rotation is untouched and the
zero-distance pair contributes no force. -/
theorem update_semi_implicit_euler_witness :
    (¬ 0 < ((getPlanet gTwo.planets 1).position.subtract
        (getPlanet gTwo.planets 0).position).magnitude sqEx) ∧
    (Game.update sqEx gTwo 1).player.rotation = gTwo.player.rotation ∧
    pairTerm gTwo.big_gravity sqEx gTwo.planets 0 (0, 1) = Vector2.zero :=
  ⟨by decide, (update_semi_implicit_euler sqEx gTwo 1).2.2.2.2.1,
   (update_semi_implicit_euler sqEx gTwo 1).2.2.2.2.2.2.2.2.1 0 1 0 (by decide)⟩

/-! ## C9: dominant-planet attribution -/

/-- The distance the dominant-planet loop computes for a planet. -/
def distOf (sq : ℚ → ℚ) (pos : Vector2) (p : Planet) : ℚ :=
  (p.position.subtract pos).magnitude sq

/-- The instantaneous gravitational acceleration `G·M/r²` the dominant-planet
loop computes for a planet. -/
def accelOf (bigG : ℚ) (sq : ℚ → ℚ) (pos : Vector2) (p : Planet) : ℚ :=
  bigG * p.mass / (distOf sq pos p * distOf sq pos p)

theorem getPlanet_cons_zero (p : Planet) (ps : List Planet) : getPlanet (p :: ps) 0 = p := by
  simp [getPlanet]

theorem getPlanet_cons_succ (p : Planet) (ps : List Planet) (k : ℕ) :
    getPlanet (p :: ps) (k + 1) = getPlanet ps k := by
  simp [getPlanet]

theorem getPlanet_mem (ps : List Planet) {i : ℕ} (h : i < ps.length) :
    getPlanet ps i ∈ ps := by
  rw [getPlanet_eq_getElem ps h]
  exact List.getElem_mem h

/-- Loop invariant of `find_dominant_planet`: the run over a suffix either
keeps the incoming accumulator (and then every candidate in the suffix is
bounded by the incoming maximum) or returns the position of a candidate that
strictly beats the incoming maximum, weakly dominates the whole suffix, and
strictly dominates everything before it. -/
theorem fdpAux_spec (bigG : ℚ) (sq : ℚ → ℚ) (pos : Vector2) :
    ∀ (ps : List Planet) (i : ℕ) (maxA : ℚ) (dom : ℕ),
      (fdpAux bigG sq pos ps i maxA dom = dom ∧
        ∀ k < ps.length, 0 < distOf sq pos (getPlanet ps k) →
          accelOf bigG sq pos (getPlanet ps k) ≤ maxA)
      ∨ (∃ k, k < ps.length ∧
          fdpAux bigG sq pos ps i maxA dom = i + k ∧
          0 < distOf sq pos (getPlanet ps k) ∧
          maxA < accelOf bigG sq pos (getPlanet ps k) ∧
          (∀ k' < ps.length, 0 < distOf sq pos (getPlanet ps k') →
            accelOf bigG sq pos (getPlanet ps k') ≤
              accelOf bigG sq pos (getPlanet ps k)) ∧
          (∀ k' < k, 0 < distOf sq pos (getPlanet ps k') →
            accelOf bigG sq pos (getPlanet ps k') <
              accelOf bigG sq pos (getPlanet ps k))) := by
  intro ps
  induction ps with
  | nil =>
    intro i maxA dom
    exact Or.inl ⟨rfl, fun k hk => by simp at hk⟩
  | cons p ps ih =>
    intro i maxA dom
    by_cases hd : 0 < distOf sq pos p
    · by_cases hacc : maxA < accelOf bigG sq pos p
      · have hstep : fdpAux bigG sq pos (p :: ps) i maxA dom =
            fdpAux bigG sq pos ps (i + 1) (accelOf bigG sq pos p) i := by
          simp only [fdpAux, distOf, accelOf] at hd hacc ⊢
          rw [if_pos hd, if_pos hacc]
        rcases ih (i + 1) (accelOf bigG sq pos p) i with ⟨hres, hbnd⟩ | ⟨k, hk, hres, hc, hlt, hb, hs⟩
        · refine Or.inr ⟨0, by simp, ?_, ?_, hacc, ?_, ?_⟩
          · rw [hstep, hres, Nat.add_zero]
          · rw [getPlanet_cons_zero]; exact hd
          · intro k' hk' hc'
            cases k' with
            | zero => rw [getPlanet_cons_zero] at hc' ⊢
            | succ m =>
              rw [getPlanet_cons_succ] at hc' ⊢
              rw [getPlanet_cons_zero]
              exact hbnd m (by simpa using hk') hc'
          · intro k' hk'
            omega
        · refine Or.inr ⟨k + 1, by simpa using hk, ?_, ?_, ?_, ?_, ?_⟩
          · rw [hstep, hres]; omega
          · rw [getPlanet_cons_succ]; exact hc
          · rw [getPlanet_cons_succ]; exact hacc.trans hlt
          · intro k' hk' hc'
            cases k' with
            | zero =>
              rw [getPlanet_cons_zero] at hc' ⊢
              rw [getPlanet_cons_succ]
              exact le_of_lt hlt
            | succ m =>
              rw [getPlanet_cons_succ] at hc' ⊢
              rw [getPlanet_cons_succ]
              exact hb m (by simpa using hk') hc'
          · intro k' hk' hc'
            cases k' with
            | zero =>
              rw [getPlanet_cons_zero] at hc' ⊢
              rw [getPlanet_cons_succ]
              exact hlt
            | succ m =>
              rw [getPlanet_cons_succ] at hc' ⊢
              rw [getPlanet_cons_succ]
              exact hs m (by omega) hc'
      · have hstep : fdpAux bigG sq pos (p :: ps) i maxA dom =
            fdpAux bigG sq pos ps (i + 1) maxA dom := by
          simp only [fdpAux, distOf, accelOf] at hd hacc ⊢
          rw [if_pos hd, if_neg hacc]
        rcases ih (i + 1) maxA dom with ⟨hres, hbnd⟩ | ⟨k, hk, hres, hc, hlt, hb, hs⟩
        · refine Or.inl ⟨by rw [hstep, hres], ?_⟩
          intro k' hk' hc'
          cases k' with
          | zero =>
            rw [getPlanet_cons_zero] at hc' ⊢
            exact le_of_not_lt hacc
          | succ m =>
            rw [getPlanet_cons_succ] at hc' ⊢
            exact hbnd m (by simpa using hk') hc'
        · refine Or.inr ⟨k + 1, by simpa using hk, ?_, ?_, ?_, ?_, ?_⟩
          · rw [hstep, hres]; omega
          · rw [getPlanet_cons_succ]; exact hc
          · rw [getPlanet_cons_succ]; exact hlt
          · intro k' hk' hc'
            cases k' with
            | zero =>
              rw [getPlanet_cons_zero] at hc' ⊢
              rw [getPlanet_cons_succ]
              exact le_of_lt (lt_of_le_of_lt (le_of_not_lt hacc) hlt)
            | succ m =>
              rw [getPlanet_cons_succ] at hc' ⊢
              rw [getPlanet_cons_succ]
              exact hb m (by simpa using hk') hc'
          · intro k' hk' hc'
            cases k' with
            | zero =>
              rw [getPlanet_cons_zero] at hc' ⊢
              rw [getPlanet_cons_succ]
              exact lt_of_le_of_lt (le_of_not_lt hacc) hlt
            | succ m =>
              rw [getPlanet_cons_succ] at hc' ⊢
              rw [getPlanet_cons_succ]
              exact hs m (by omega) hc'
    · have hstep : fdpAux bigG sq pos (p :: ps) i maxA dom =
          fdpAux bigG sq pos ps (i + 1) maxA dom := by
        simp only [fdpAux, distOf] at hd ⊢
        rw [if_neg hd]
      rcases ih (i + 1) maxA dom with ⟨hres, hbnd⟩ | ⟨k, hk, hres, hc, hlt, hb, hs⟩
      · refine Or.inl ⟨by rw [hstep, hres], ?_⟩
        intro k' hk' hc'
        cases k' with
        | zero =>
          rw [getPlanet_cons_zero] at hc'
          exact absurd hc' hd
        | succ m =>
          rw [getPlanet_cons_succ] at hc' ⊢
          exact hbnd m (by simpa using hk') hc'
      · refine Or.inr ⟨k + 1, by simpa using hk, ?_, ?_, ?_, ?_, ?_⟩
        · rw [hstep, hres]; omega
        · rw [getPlanet_cons_succ]; exact hc
        · rw [getPlanet_cons_succ]; exact hlt
        · intro k' hk' hc'
          cases k' with
          | zero =>
            rw [getPlanet_cons_zero] at hc'
            exact absurd hc' hd
          | succ m =>
            rw [getPlanet_cons_succ] at hc' ⊢
            rw [getPlanet_cons_succ]
            exact hb m (by simpa using hk') hc'
        · intro k' hk' hc'
          cases k' with
          | zero =>
            rw [getPlanet_cons_zero] at hc'
            exact absurd hc' hd
          | succ m =>
            rw [getPlanet_cons_succ] at hc' ⊢
            rw [getPlanet_cons_succ]
            exact hs m (by omega) hc'

/-- C9: with a positive gravitational constant and positive masses, whenever
some planet lies at positive distance from the query position,
`find_dominant_planet` returns the index of the planet with the largest
instantaneous gravitational acceleration `G·M/r²`, skipping zero-distance
planets, and ties are broken in favour of the earliest index (every
earlier candidate is strictly smaller). -/
theorem find_dominant_planet_spec (sq : ℚ → ℚ) (g : Game) (pos : Vector2)
    (hG : 0 < g.big_gravity) (hm : ∀ p ∈ g.planets, 0 < p.mass)
    (hex : ∃ k, k < g.planets.length ∧ 0 < distOf sq pos (getPlanet g.planets k)) :
    find_dominant_planet sq g pos < g.planets.length ∧
    0 < distOf sq pos (getPlanet g.planets (find_dominant_planet sq g pos)) ∧
    (∀ k < g.planets.length, 0 < distOf sq pos (getPlanet g.planets k) →
      accelOf g.big_gravity sq pos (getPlanet g.planets k) ≤
        accelOf g.big_gravity sq pos (getPlanet g.planets (find_dominant_planet sq g pos))) ∧
    (∀ k < find_dominant_planet sq g pos,
      0 < distOf sq pos (getPlanet g.planets k) →
      accelOf g.big_gravity sq pos (getPlanet g.planets k) <
        accelOf g.big_gravity sq pos (getPlanet g.planets (find_dominant_planet sq g pos))) := by
  obtain ⟨k0, hk0, hc0⟩ := hex
  have hres := fdpAux_spec g.big_gravity sq pos g.planets 0 0 0
  rcases hres with ⟨hres, hbnd⟩ | ⟨k, hk, hres, hc, _, hb, hs⟩
  · exfalso
    have hpos : 0 < accelOf g.big_gravity sq pos (getPlanet g.planets k0) := by
      unfold accelOf
      exact div_pos (mul_pos hG (hm _ (getPlanet_mem g.planets hk0))) (mul_pos hc0 hc0)
    exact absurd (hbnd k0 hk0 hc0) (not_le.mpr hpos)
  · have hfd : find_dominant_planet sq g pos = k := by
      unfold find_dominant_planet
      rw [hres]
      omega
    rw [hfd]
    exact ⟨hk, hc, hb, hs⟩

/-- sqrt stand-in returning 1, for the C9 witness. -/
def sqOne : ℚ → ℚ := fun _ => 1

/-- A concrete one-planet game for the C9 witness. -/
def gC9 : Game :=
  ⟨1, [⟨1, 2, ⟨5, 5⟩, ⟨0, 0⟩⟩], ⟨⟨0, 0⟩, ⟨0, 0⟩, 1, 0⟩, ⟨[], [], [], [], [], true⟩⟩

/-- Witness for C9 at a concrete game. -/
theorem find_dominant_planet_spec_witness :
    (0 < gC9.big_gravity ∧ (∀ p ∈ gC9.planets, 0 < p.mass) ∧
      0 < distOf sqOne Vector2.zero (getPlanet gC9.planets 0)) ∧
    find_dominant_planet sqOne gC9 Vector2.zero < gC9.planets.length :=
  ⟨⟨by decide, by decide, by decide⟩,
   (find_dominant_planet_spec sqOne gC9 Vector2.zero (by decide) (by decide)
     ⟨0, by decide, by decide⟩).1⟩

end Sim
